import Mathlib

set_option linter.unusedVariables false

/-!
Verification of the codex-rs TUI markdown rendering core against its
specification.  The definitions below are a shallow embedding of
`tui/src/markdown_render.rs` and `tui/src/render/highlight.rs`.

Strings are modelled as `List Char`.  Rust byte-index slicing is modelled
through each character's UTF-8 size (`Char.utf8Size`); an `Option` result
whose `none` case marks a Rust panic (slicing a string at a byte index that
is not a character boundary).
-/

namespace Codex

abbrev Str := List Char

/-- String literal helper: the character list of a Lean string. -/
def lit (s : String) : Str := s.data

/-- The backtick character (U+0060). -/
def btChar : Char := Char.ofNat 96

/-- The single-quote character (U+0027). -/
def sqChar : Char := Char.ofNat 39

/-- The bullet character `U+2022` recognised by `split_table_prefix`. -/
def bulletChar : Char := Char.ofNat 0x2022

/-- Decimal digit characters of a natural number, most significant first
(Rust `u64::to_string` / `format!`). -/
def toDecimal (n : Nat) : Str := Nat.toDigits 10 n

/-- Rust `char::is_whitespace`: the Unicode `White_Space` property. -/
def rustIsWhitespace (c : Char) : Bool :=
  [0x09, 0x0A, 0x0B, 0x0C, 0x0D, 0x20, 0x85, 0xA0, 0x1680,
   0x2000, 0x2001, 0x2002, 0x2003, 0x2004, 0x2005, 0x2006, 0x2007,
   0x2008, 0x2009, 0x200A, 0x2028, 0x2029, 0x202F, 0x205F, 0x3000].contains c.toNat

/-- Rust `str::trim_start`. -/
def trimStart (s : Str) : Str := s.dropWhile rustIsWhitespace

/-- Rust `str::trim_end`. -/
def trimEnd (s : Str) : Str := (s.reverse.dropWhile rustIsWhitespace).reverse

/-- Rust `str::trim`. -/
def rustTrim (s : Str) : Str := trimEnd (trimStart s)

/-- Rust `str::split(sep)`: always yields at least one (possibly empty) part. -/
def splitOnChar (sep : Char) : Str → List Str
  | [] => [[]]
  | c :: cs =>
    if c = sep then [] :: splitOnChar sep cs
    else
      match splitOnChar sep cs with
      | [] => [[c]]
      | l :: ls => (c :: l) :: ls

/-- Rust `str::split('\n')`. -/
def splitNl : Str → List Str := splitOnChar '\n'

/-- Rust `Vec<String>::join("\n")` / `[&str]::join("\n")`. -/
def joinNl : List Str → Str
  | [] => []
  | [l] => l
  | l :: ls => l ++ '\n' :: joinNl ls

/-- Strip one trailing carriage return (used by Rust `str::lines`). -/
def stripCr (l : Str) : Str :=
  if l.getLast? = some '\r' then l.dropLast else l

/-- Rust `str::lines`: split on `'\n'`, dropping a final empty line produced by
a trailing newline, and stripping the `'\r'` of a `"\r\n"` line ending. -/
def rustLines (s : Str) : List Str :=
  if s = [] then []
  else if s.getLast? = some '\n' then ((splitNl s).dropLast).map stripCr
  else
    match (splitNl s).reverse with
    | [] => []
    | last :: revInit => (revInit.reverse).map stripCr ++ [last]

/-- UTF-8 byte length of a string. -/
def utf8Len (s : Str) : Nat := (s.map Char.utf8Size).sum

/-- Rust byte slice `&s[n..]`.  `none` models the panic raised when `n` is not
a character boundary (with `n < s.len()`). -/
def dropBytes : Str → Nat → Option Str
  | s, 0 => some s
  | [], _ => none
  | c :: cs, n => if c.utf8Size ≤ n then dropBytes cs (n - c.utf8Size) else none

/-- Rust byte slice `&s[..n]`.  `none` models the char-boundary panic. -/
def takeBytes : Str → Nat → Option Str
  | _, 0 => some []
  | [], _ => none
  | c :: cs, n =>
    if c.utf8Size ≤ n then (takeBytes cs (n - c.utf8Size)).map (c :: ·) else none

/-- Rust byte slice `&s[a..b]`.  `none` models the panic (bad boundary or
`a > b`). -/
def sliceBytes (s : Str) (a b : Nat) : Option Str :=
  if b < a then none
  else (dropBytes s a).bind fun r => takeBytes r (b - a)

/-- Rust `char::to_ascii_lowercase`. -/
def asciiLower (c : Char) : Char :=
  if 'A' ≤ c ∧ c ≤ 'Z' then Char.ofNat (c.toNat + 32) else c

/-- Rust `str::contains(pat)` for a substring pattern. -/
def containsSub (pat : Str) : Str → Bool
  | [] => pat.isPrefixOf []
  | c :: cs => pat.isPrefixOf (c :: cs) || containsSub pat cs

theorem length_tail_le (l : List Char) : l.tail.length ≤ l.length := by
  cases l <;> simp

theorem length_dropWhileB_le (p : Char → Bool) (l : List Char) :
    (l.dropWhile p).length ≤ l.length := by
  induction l with
  | nil => simp
  | cons c cs ih =>
    by_cases h : p c = true
    · simpa [List.dropWhile, h] using Nat.le_succ_of_le ih
    · simp [List.dropWhile, h]

/-! ## ratatui styles, spans, lines -/

/-- ratatui `Color` (only the variants this code uses). -/
inductive RColor where
  | rgb (r g b : Nat)
  | cyan
  | lightBlue
  | green
  deriving DecidableEq, Repr

/-- ratatui `Style`: foreground color plus the modifiers this code uses. -/
structure RStyle where
  fg : Option RColor := none
  bold : Bool := false
  dim : Bool := false
  italic : Bool := false
  underlined : Bool := false
  crossedOut : Bool := false
  deriving DecidableEq, Repr

/-- Rust `Style::default()`. -/
def noStyle : RStyle := {}

/-- ratatui `Style::patch`: fields set in `b` win; modifiers accumulate. -/
def RStyle.patch (a b : RStyle) : RStyle :=
  { fg := match b.fg with | some c => some c | none => a.fg
    bold := a.bold || b.bold
    dim := a.dim || b.dim
    italic := a.italic || b.italic
    underlined := a.underlined || b.underlined
    crossedOut := a.crossedOut || b.crossedOut }

/-- ratatui `Span`: a piece of text with one style. -/
structure RSpan where
  content : Str
  style : RStyle
  deriving DecidableEq, Repr

/-- Rust `Span::from(s)` / `s.into()`: default style. -/
def spanRaw (s : Str) : RSpan := ⟨s, noStyle⟩

/-- Rust `Span::styled(s, style)`. -/
def mkSpan (s : Str) (st : RStyle) : RSpan := ⟨s, st⟩

/-- Rust `Span::styled` with `Option<Style>` as in `push_segment`:
`None` produces a default-styled span (`s.into()`). -/
def mkSpanOpt (s : Str) (st : Option RStyle) : RSpan := ⟨s, st.getD noStyle⟩

/-- ratatui `Line`: spans plus a line-level style. -/
structure RLine where
  spans : List RSpan
  style : RStyle
  deriving DecidableEq, Repr

/-- Rust `Line::default()`: no spans. -/
def lineDefault : RLine := ⟨[], noStyle⟩

/-- Rust `Line::from(s)` for a string: a single default-styled span. -/
def lineFrom (s : Str) : RLine := ⟨[spanRaw s], noStyle⟩

/-- Rust `line_to_plain_string`: concatenation of all span contents. -/
def lineToPlainString (l : RLine) : Str := (l.spans.map RSpan.content).flatten

/-- Concatenate all span texts of all lines, rejoined with `'\n'`
(the fidelity invariant's reconstruction, mirroring the repo's own
`reconstructed` test helper). -/
def reconstruct (ls : List RLine) : Str := joinNl (ls.map lineToPlainString)

/-! ## Highlight languages (`render/highlight.rs`) -/

/-- Rust `HighlightLanguage`: languages supported by the TUI highlighter. -/
inductive HighlightLanguage where
  | bash | python | javascript | typescript | tsx | json | toml | yaml
  | rust | css | html | sql | java | kotlin | dart | hcl
  | markdown | xml | dockerfile | dotenv | ini
  deriving DecidableEq, Repr

/-- Rust `HighlightLanguage::from_fence_info`: first whitespace-delimited token of
the fence info string, ASCII-lowercased, looked up in a fixed table. -/
def fromFenceInfo (info : Str) : Option HighlightLanguage :=
  let raw := (trimStart info).takeWhile (fun c => !rustIsWhitespace c)
  if raw = [] then none
  else
    let n := raw.map asciiLower
    if n = lit "bash" ∨ n = lit "sh" then some .bash
    else if n = lit "py" ∨ n = lit "python" then some .python
    else if n = lit "js" ∨ n = lit "javascript" then some .javascript
    else if n = lit "ts" ∨ n = lit "typescript" then some .typescript
    else if n = lit "tsx" then some .tsx
    else if n = lit "json" then some .json
    else if n = lit "md" ∨ n = lit "markdown" then some .markdown
    else if n = lit "toml" then some .toml
    else if n = lit "yml" ∨ n = lit "yaml" then some .yaml
    else if n = lit "rs" ∨ n = lit "rust" then some .rust
    else if n = lit "css" then some .css
    else if n = lit "scss" then some .css
    else if n = lit "html" then some .html
    else if n = lit "xml" then some .xml
    else if n = lit "sql" then some .sql
    else if n = lit "java" then some .java
    else if n = lit "kotlin" ∨ n = lit "kt" then some .kotlin
    else if n = lit "dart" ∨ n = lit "flutter" then some .dart
    else if n = lit "hcl" ∨ n = lit "terraform" then some .hcl
    else if n = lit "dockerfile" then some .dockerfile
    else if n = lit "dotenv" ∨ n = lit "env" then some .dotenv
    else if n = lit "ini" then some .ini
    else none

/-- Rust `HIGHLIGHT_NAMES`: the fixed capture-name table. -/
def highlightNames : List String :=
  ["attribute", "boolean", "character", "comment", "constant",
   "constant.builtin", "constructor", "conditional", "embedded", "error",
   "escape", "exception", "function", "function.builtin", "include",
   "keyword", "label", "method", "module", "namespace", "number",
   "operator", "parameter", "property", "punctuation",
   "punctuation.bracket", "punctuation.delimiter", "punctuation.special",
   "repeat", "string", "string.special", "string.escape", "symbol", "tag",
   "tag.builtin", "type", "type.builtin", "variable", "variable.builtin",
   "variable.parameter"]

/-- Rust `highlight_name_for`: capture-name lookup with `"unknown"` fallback. -/
def highlightNameFor (h : Nat) : String := highlightNames.getD h "unknown"

/-- Rust `darcula_rgb`. -/
def darculaRgb (r g b : Nat) : RColor := .rgb r g b

/-- Rust `style_for_capture`: bash keeps a conservative dim-only scheme; every
other language uses the Darcula-ish palette. -/
def styleForCapture (lang : HighlightLanguage) (capture : String) : RStyle :=
  if lang = .bash then
    match capture with
    | "comment" | "operator" | "string" => { dim := true }
    | _ => noStyle
  else
    match capture with
    | "comment" => { fg := some (darculaRgb 128 128 128), dim := true }
    | "string" | "string.special" | "string.escape" | "character"
    | "escape" => { fg := some (darculaRgb 106 135 89) }
    | "number" | "boolean" => { fg := some (darculaRgb 104 151 187) }
    | "keyword" | "include" | "conditional" | "exception"
    | "repeat" => { fg := some (darculaRgb 204 120 50), bold := true }
    | "operator" | "punctuation" | "punctuation.bracket"
    | "punctuation.delimiter" =>
      { fg := some (darculaRgb 169 183 198), dim := true }
    | "punctuation.special" => { fg := some (darculaRgb 169 183 198), dim := true }
    | "function" | "function.builtin" | "constructor" | "method" =>
      { fg := some (darculaRgb 255 198 109) }
    | "type" | "type.builtin" => { fg := some (darculaRgb 152 118 170) }
    | "constant" | "constant.builtin" | "symbol" =>
      { fg := some (darculaRgb 152 118 170) }
    | "variable" | "variable.parameter" | "variable.builtin" | "parameter" =>
      { fg := some (darculaRgb 169 183 198) }
    | "property" | "attribute" => { fg := some (darculaRgb 187 181 41) }
    | "tag" | "tag.builtin" => { fg := some (darculaRgb 204 120 50) }
    | "module" | "namespace" => { fg := some (darculaRgb 169 183 198) }
    | "label" => { fg := some (darculaRgb 152 118 170) }
    | "embedded" => { fg := some (darculaRgb 106 135 89) }
    | "error" => { fg := some (darculaRgb 255 85 85), bold := true }
    | _ => noStyle

/-! ## `push_segment` and the grammar-based highlight loop -/

/-- Append a span to the last line (`lines.last_mut()`); a no-op when there is
no line (the span is dropped, exactly as in the source). -/
def appendSpanLast (lines : List RLine) (sp : RSpan) : List RLine :=
  match lines.reverse with
  | [] => []
  | last :: revInit => (revInit.reverse) ++ [{ last with spans := last.spans ++ [sp] }]

/-- Loop body of `push_segment`: one iteration per `'\n'`-separated part,
pushing a fresh empty line before every part but the first, and appending a
span to the last line for each non-empty part. -/
def pushSegGo (style : Option RStyle) : List Str → Bool → List RLine → List RLine
  | [], _, lines => lines
  | p :: ps, first, lines =>
    let lines := if first then lines else lines ++ [lineFrom []]
    let lines := if p = [] then lines else appendSpanLast lines (mkSpanOpt p style)
    pushSegGo style ps false lines

/-- Rust `push_segment`. -/
def pushSegment (lines : List RLine) (segment : Str) (style : Option RStyle) :
    List RLine :=
  pushSegGo style (splitNl segment) true lines

/-- A tree-sitter `HighlightEvent` (external input to the grammar path). -/
inductive GEvent where
  | hlStart (idx : Nat)
  | hlEnd
  | src (start stop : Nat)
  deriving DecidableEq, Repr

/-- Result of the highlight pipeline: styled lines, or a Rust panic (only
reachable when the external event stream slices the source outside character
boundaries, which tree-sitter never does). -/
inductive HlOut where
  | lines (ls : List RLine)
  | panicked
  deriving DecidableEq, Repr

/-- The event loop of `highlight_to_lines` (grammar strategy).  The event
stream is the external highlighter's output; a `none` element models an
`Err(_)` event, which makes the function return the whole source as a single
unstyled line.  The highlight stack is a list with its head as the innermost
active capture (`Vec` push/pop at the end). -/
def grammarLoop (lang : HighlightLanguage) (source : Str) :
    List (Option GEvent) → List Nat → List RLine → HlOut
  | [], _, lines => .lines (if lines = [] then [lineFrom []] else lines)
  | none :: _, _, _ => .lines [lineFrom source]
  | some (.hlStart h) :: rest, stack, lines => grammarLoop lang source rest (h :: stack) lines
  | some .hlEnd :: rest, stack, lines => grammarLoop lang source rest stack.tail lines
  | some (.src s e) :: rest, stack, lines =>
    if s = e then grammarLoop lang source rest stack lines
    else
      match sliceBytes source s e with
      | none => .panicked
      | some seg =>
        let style := stack.head?.map fun h => styleForCapture lang (highlightNameFor h)
        grammarLoop lang source rest stack (pushSegment lines seg style)

/-- The external tree-sitter highlighter, as an oracle: `none` models
`highlighter.highlight(...)` returning `Err`, and a `none` element of the
stream models an `Err(_)` event. -/
def HlOracle := HighlightLanguage → Str → Option (List (Option GEvent))

/-! ## Heuristic tokenizers -/

/-- Inner loop of `push_inline_with_code` (markdown tokenizer): scan
characters, emitting the buffered run on each backtick and toggling the
inline-code flag.  `buf` is accumulated in reverse. -/
def pushInlineGo (baseStyle : Option RStyle) (btStyle codeStyle : RStyle) :
    Str → Str → Bool → List RSpan
  | [], buf, inCode =>
    if buf = [] then []
    else [mkSpanOpt buf.reverse (if inCode then some codeStyle else baseStyle)]
  | c :: cs, buf, inCode =>
    if c = btChar then
      (if buf = [] then []
       else [mkSpanOpt buf.reverse (if inCode then some codeStyle else baseStyle)]) ++
      mkSpan [btChar] btStyle ::
        pushInlineGo baseStyle btStyle codeStyle cs [] (!inCode)
    else pushInlineGo baseStyle btStyle codeStyle cs (c :: buf) inCode

/-- Rust `push_inline_with_code`: spans appended to the line for inline text with
backtick-delimited code runs. -/
def pushInlineWithCode (s : Str) (baseStyle : Option RStyle)
    (btStyle codeStyle : RStyle) : List RSpan :=
  pushInlineGo baseStyle btStyle codeStyle s [] false

/-- Rust `marker_end` loop of the markdown tokenizer's ordered-list detection:
byte offset just past the `<digits>.`/`<digits>)` marker, or 0. -/
def orderedMarkerEndGo : Str → Nat → Nat
  | [], acc => acc
  | c :: cs, acc =>
    let m := acc + c.utf8Size
    if c = '.' ∨ c = ')' then m
    else if !c.isDigit then 0
    else orderedMarkerEndGo cs m

/-- One line of `highlight_markdown_to_lines`. -/
def markdownLine (raw : Str) : RLine :=
  let headingStyle := styleForCapture .markdown "keyword"
  let listMarkerStyle := styleForCapture .markdown "punctuation.special"
  let backtickStyle := styleForCapture .markdown "punctuation.special"
  let codeStyle := styleForCapture .markdown "string"
  let base : List RSpan := [spanRaw []]
  if raw = [] then ⟨base, noStyle⟩
  else
    let trimmed := raw.dropWhile rustIsWhitespace
    let indent := raw.takeWhile rustIsWhitespace
    let spans := base ++ (if indent = [] then [] else [spanRaw indent])
    -- Fences: ```lang
    if [btChar, btChar, btChar].isPrefixOf trimmed then
      ⟨spans ++ [mkSpan trimmed listMarkerStyle], noStyle⟩
    else
      -- Heading: # ... (needs a space or tab after the hashes)
      let hashCount := (trimmed.takeWhile (· = '#')).length
      let after := trimmed.drop hashCount
      if hashCount > 0 && (decide (after.head? = some ' ') || decide (after.head? = some '\t')) then
        ⟨spans ++ mkSpan (List.replicate hashCount '#') listMarkerStyle ::
           pushInlineWithCode after (some headingStyle) backtickStyle codeStyle,
         noStyle⟩
      else
        let isBullet := (lit "- ").isPrefixOf trimmed || (lit "* ").isPrefixOf trimmed ||
          (lit "+ ").isPrefixOf trimmed
        let isOrdered := decide ((trimmed.takeWhile Char.isDigit).length > 0) &&
          (containsSub (lit ". ") trimmed || containsSub (lit ") ") trimmed)
        if isBullet then
          ⟨spans ++ mkSpan (trimmed.take 1) listMarkerStyle ::
             pushInlineWithCode (trimmed.drop 1) none backtickStyle codeStyle,
           noStyle⟩
        else
          let markerEnd := if isOrdered then orderedMarkerEndGo trimmed 0 else 0
          -- marker_end is a sum of len_utf8s, hence always a char boundary
          let markerTxt := (takeBytes trimmed markerEnd).getD []
          let afterMarker := (dropBytes trimmed markerEnd).getD []
          if isOrdered && decide (markerEnd > 0) && decide (afterMarker.head? = some ' ') then
            ⟨spans ++ mkSpan markerTxt listMarkerStyle ::
               pushInlineWithCode afterMarker none backtickStyle codeStyle,
             noStyle⟩
          else
            ⟨spans ++ pushInlineWithCode trimmed none backtickStyle codeStyle, noStyle⟩

/-- Rust `highlight_markdown_to_lines`: exactly one output line per source line. -/
def highlightMarkdownToLines (source : Str) : List RLine :=
  (splitNl source).map markdownLine

/-- Dockerfile instruction keywords. -/
def dockerKeywords : List String :=
  ["FROM", "AS", "RUN", "CMD", "LABEL", "EXPOSE", "ENV", "ADD", "COPY",
   "ENTRYPOINT", "VOLUME", "USER", "WORKDIR", "ARG", "ONBUILD", "STOPSIGNAL",
   "HEALTHCHECK", "SHELL", "MAINTAINER"]

/-- Rust `is_keyword`: case-insensitive comparison against the instruction list. -/
def isDockerKeyword (tok : Str) : Bool :=
  dockerKeywords.any fun k => tok.map asciiLower = (lit k).map asciiLower

/-- Opening brace character. -/
def lbraceChar : Char := Char.ofNat 123

/-- Closing brace character. -/
def rbraceChar : Char := Char.ofNat 125

/-- Characters allowed in a `$VAR` name. -/
def isVarChar (c : Char) : Bool := c.isAlphanum && c.toNat < 128 || c = '_'

/-- Scan until (and including) the closing quote; the rest of the input when
unterminated.  Returns `(segment, rest)`. -/
def takeUntilQuote (q : Char) : Str → (Str × Str)
  | [] => ([], [])
  | c :: cs =>
    if c = q then ([c], cs)
    else
      let (a, b) := takeUntilQuote q cs
      (c :: a, b)

theorem takeUntilQuote_len (q : Char) (s : Str) :
    (takeUntilQuote q s).2.length ≤ s.length := by
  induction s with
  | nil => simp [takeUntilQuote]
  | cons c cs ih =>
    simp only [takeUntilQuote]
    split
    · simp
    · simpa using Nat.le_succ_of_le ih

/-- The `$`-expansion / quoted-string scanner of the dockerfile tokenizer.
`buf` is the pending plain-text run, accumulated in reverse. -/
def dockerScan (opStyle varStyle strStyle : RStyle) : Str → Str → List RSpan
  | [], buf => if buf = [] then [] else [spanRaw buf.reverse]
  | c :: cs, buf =>
    if c = '$' then
      (if buf = [] then [] else [spanRaw buf.reverse]) ++
      mkSpan [c] opStyle ::
      (if cs.head? = some lbraceChar then
        let cs' := cs.tail
        let name := cs'.takeWhile (· ≠ rbraceChar)
        let rest := cs'.dropWhile (· ≠ rbraceChar)
        mkSpan [lbraceChar] opStyle ::
        ((if name = [] then [] else [mkSpan name varStyle]) ++
         (if rest.head? = some rbraceChar then
            mkSpan [rbraceChar] opStyle :: dockerScan opStyle varStyle strStyle rest.tail []
          else dockerScan opStyle varStyle strStyle rest []))
      else
        let name := cs.takeWhile isVarChar
        let rest := cs.dropWhile isVarChar
        (if name = [] then [] else [mkSpan name varStyle]) ++
        dockerScan opStyle varStyle strStyle rest [])
    else if c = '"' ∨ c = sqChar then
      let sr := takeUntilQuote c cs
      (if buf = [] then [] else [spanRaw buf.reverse]) ++
      mkSpan (c :: sr.1) strStyle :: dockerScan opStyle varStyle strStyle sr.2 []
    else dockerScan opStyle varStyle strStyle cs (c :: buf)
termination_by s _ => s.length
decreasing_by
  · exact Nat.lt_succ_of_le (le_trans (length_tail_le _)
      (le_trans (length_dropWhileB_le _ _) (length_tail_le _)))
  · exact Nat.lt_succ_of_le (le_trans (length_dropWhileB_le _ _) (length_tail_le _))
  · exact Nat.lt_succ_of_le (length_dropWhileB_le _ _)
  · exact Nat.lt_succ_of_le (takeUntilQuote_len _ _)
  · exact Nat.lt_succ_self _

/-- One line of `highlight_dockerfile_to_lines`. -/
def dockerLine (raw : Str) : RLine :=
  let commentStyle := styleForCapture .dockerfile "comment"
  let keywordStyle := styleForCapture .dockerfile "keyword"
  let opStyle := styleForCapture .dockerfile "operator"
  let strStyle := styleForCapture .dockerfile "string"
  let varStyle := styleForCapture .dockerfile "variable"
  let base : List RSpan := [spanRaw []]
  if raw = [] then ⟨base, noStyle⟩
  else
    let trimmed := raw.dropWhile rustIsWhitespace
    let indent := raw.takeWhile rustIsWhitespace
    let spans := base ++ (if indent = [] then [] else [spanRaw indent])
    if trimmed.head? = some '#' then
      ⟨spans ++ [mkSpan trimmed commentStyle], noStyle⟩
    else
      let tok := trimmed.takeWhile (fun c => !rustIsWhitespace c)
      let hasWs := tok.length < trimmed.length
      if hasWs then
        let rest := trimmed.drop tok.length
        if isDockerKeyword tok then
          ⟨spans ++ mkSpan tok keywordStyle :: dockerScan opStyle varStyle strStyle rest [],
           noStyle⟩
        else ⟨spans ++ dockerScan opStyle varStyle strStyle trimmed [], noStyle⟩
      else if isDockerKeyword trimmed then
        ⟨spans ++ [mkSpan trimmed keywordStyle], noStyle⟩
      else ⟨spans ++ dockerScan opStyle varStyle strStyle trimmed [], noStyle⟩

/-- Rust `highlight_dockerfile_to_lines`. -/
def highlightDockerfileToLines (source : Str) : List RLine :=
  (splitNl source).map dockerLine

/-- One line of `highlight_dotenv_to_lines`.  Note: after the `export` prefix
is pushed as a keyword span, `key_segment` is sliced from the start of the
line (`&line[..eq_pos]`), so it contains the already-pushed prefix again. -/
def dotenvLine (line : Str) : RLine :=
  let commentStyle := styleForCapture .dotenv "comment"
  let keyStyle := styleForCapture .dotenv "attribute"
  let opStyle := styleForCapture .dotenv "operator"
  let strStyle := styleForCapture .dotenv "string"
  let numberStyle := styleForCapture .dotenv "number"
  let base : List RSpan := [spanRaw []]
  if line = [] then ⟨base, noStyle⟩
  else
    let trimmed := line.dropWhile rustIsWhitespace
    if trimmed.head? = some '#' then
      ⟨base ++ [mkSpan line commentStyle], noStyle⟩
    else
      let wsLen := line.length - trimmed.length
      let (spans, idx) :=
        if (lit "export ").isPrefixOf trimmed then
          let exportPreLen := wsLen + (lit "export ").length
          (base ++ [mkSpan (line.take exportPreLen) (styleForCapture .dotenv "keyword")],
           exportPreLen)
        else (base, wsLen)
      match (line.drop idx).findIdx? (· = '=') with
      | none => ⟨spans ++ [spanRaw line], noStyle⟩
      | some j =>
        let eqPos := idx + j
        let keySegment := line.take eqPos
        let keyToken := trimEnd keySegment
        let keyWs := keySegment.drop keyToken.length
        let spans := spans ++
          (if keyToken = [] then [] else [mkSpan keyToken keyStyle]) ++
          (if keyWs = [] then [] else [spanRaw keyWs])
        let spans := spans ++ [mkSpan ['='] opStyle]
        let value := line.drop (eqPos + 1)
        if value = [] then ⟨spans, noStyle⟩
        else
          let valueTrimmed := value.dropWhile rustIsWhitespace
          let leading := value.takeWhile rustIsWhitespace
          let spans := spans ++ (if leading = [] then [] else [spanRaw leading])
          let valueStyle :=
            if valueTrimmed.head? = some '"' ∨ valueTrimmed.head? = some sqChar ∨
               valueTrimmed.contains '/' ∨ valueTrimmed.contains '.' then strStyle
            else if valueTrimmed.all Char.isDigit then numberStyle
            else strStyle
          ⟨spans ++ [mkSpan valueTrimmed valueStyle], noStyle⟩

/-- Rust `highlight_dotenv_to_lines`. -/
def highlightDotenvToLines (source : Str) : List RLine :=
  (splitNl source).map dotenvLine

/-- One line of `highlight_ini_to_lines`. -/
def iniLine (line : Str) : RLine :=
  let commentStyle := styleForCapture .ini "comment"
  let sectionStyle := styleForCapture .ini "keyword"
  let keyStyle := styleForCapture .ini "attribute"
  let opStyle := styleForCapture .ini "operator"
  let strStyle := styleForCapture .ini "string"
  let base : List RSpan := [spanRaw []]
  if line = [] then ⟨base, noStyle⟩
  else
    let trimmed := line.dropWhile rustIsWhitespace
    if trimmed.head? = some ';' ∨ trimmed.head? = some '#' then
      ⟨base ++ [mkSpan line commentStyle], noStyle⟩
    else if trimmed.head? = some '[' ∧ trimmed.getLast? = some ']' ∧ 2 ≤ trimmed.length then
      ⟨base ++ [mkSpan line sectionStyle], noStyle⟩
    else
      match trimmed.findIdx? (fun c => c = '=' ∨ c = ':') with
      | none => ⟨base ++ [spanRaw line], noStyle⟩
      | some sepIdx =>
        let sepCh := (trimmed.get? sepIdx).getD '='
        let leadingWs := line.take (line.length - trimmed.length)
        let spans := base ++ (if leadingWs = [] then [] else [spanRaw leadingWs])
        let keyPart := trimmed.take sepIdx
        let keyToken := trimEnd keyPart
        let keyWs := keyPart.drop keyToken.length
        let spans := spans ++
          (if keyToken = [] then [] else [mkSpan keyToken keyStyle]) ++
          (if keyWs = [] then [] else [spanRaw keyWs])
        let spans := spans ++ [mkSpan [sepCh] opStyle]
        let value := trimmed.drop (sepIdx + 1)
        ⟨spans ++ (if value = [] then [] else [mkSpan value strStyle]), noStyle⟩

/-- Rust `highlight_ini_to_lines`. -/
def highlightIniToLines (source : Str) : List RLine :=
  (splitNl source).map iniLine

/-- Rust `highlight_to_lines`: heuristic tokenizers for markdown / dockerfile /
dotenv / ini; the tree-sitter grammar strategy (via the oracle) for every
other language, with an unstyled single-line fallback when the highlighter
fails to start. -/
def highlightToLines (lang : HighlightLanguage) (source : Str)
    (oracle : HlOracle) : HlOut :=
  match lang with
  | .markdown => .lines (highlightMarkdownToLines source)
  | .dockerfile => .lines (highlightDockerfileToLines source)
  | .dotenv => .lines (highlightDotenvToLines source)
  | .ini => .lines (highlightIniToLines source)
  | _ =>
    match oracle lang source with
    | none => .lines [lineFrom source]
    | some evs => grammarLoop lang source evs [] [lineFrom []]

/-- Languages handled by the grammar-based strategy (everything except the
four heuristic tokenizers). -/
def isGrammarStrategy (lang : HighlightLanguage) : Bool :=
  match lang with
  | .markdown | .dockerfile | .dotenv | .ini => false
  | _ => true

/-! ## Table source normalizer (`markdown_render.rs`) -/

/-- Space or tab (`matches!(b, b' ' | b'\t')`). -/
def isSpTab (c : Char) : Bool := c = ' ' || c = '\t'

/-- The quote-marker loop of `split_table_prefix`: while the next byte is
`'>'`, consume it, then at most one following `' '`, then any run of
spaces/tabs.  Consuming "one optional `' '` then a space/tab run" consumes
exactly the same characters as consuming a space/tab run, so the two steps
are fused; `inWs` records whether space/tab may currently be consumed.
Returns the number of bytes consumed and the rest (all consumed characters
are one-byte ASCII). -/
def quoteSkip : Str → Bool → Nat → (Nat × Str)
  | [], _, acc => (acc, [])
  | c :: cs, inWs, acc =>
    if inWs && isSpTab c then quoteSkip cs true (acc + 1)
    else if c = '>' then quoteSkip cs true (acc + 1)
    else (acc, c :: cs)

/-- The list-marker phase of `split_table_prefix`: a bullet glyph
(`•`/`-`/`+`/`*`) or digits followed by `.`/`)`.  Returns the bytes consumed
and the rest, or `none` when no marker is recognised (in which case the
index is reset). -/
def tableListMarker (s : Str) : Option (Nat × Str) :=
  match s with
  | [] => none
  | c :: cs =>
    if c = bulletChar then some (bulletChar.utf8Size, cs)
    else if c = '-' ∨ c = '+' ∨ c = '*' then some (1, cs)
    else if c.isDigit then
      let ds := (c :: cs).takeWhile Char.isDigit
      let rest := (c :: cs).dropWhile Char.isDigit
      match rest with
      | d :: rs => if d = '.' ∨ d = ')' then some (ds.length + 1, rs) else none
      | [] => none
    else none

/-- Rust `split_table_prefix`: byte length of the structural prefix (leading
whitespace, quote markers, at most one list marker) and the remaining text;
`none` only for the empty line. -/
def splitTableMarker (line : Str) : Option (Nat × Str) :=
  if line = [] then none
  else
    let s1 := line.dropWhile isSpTab
    let n1 := line.length - s1.length
    let (nq, s2) := quoteSkip s1 false 0
    match tableListMarker s2 with
    | none => some (n1 + nq, s2)
    | some (nm, s3) =>
      let (nsp, s4) := match s3 with
        | ' ' :: t => (1, t)
        | _ => (0, s3)
      let s5 := s4.dropWhile isSpTab
      let n5 := s4.length - s5.length
      some (n1 + nq + nm + nsp + n5, s5)

/-- Rust `strip_prefix`: empty string when the line is no longer than the prefix,
otherwise the byte slice `&line[strip_len..]`.  `none` models the
char-boundary panic. -/
def stripLead (line : Str) (stripLen : Nat) : Option Str :=
  if utf8Len line ≤ stripLen then some []
  else dropBytes line stripLen

/-- Rust `is_pipe_table_separator`: only dashes, colons, pipes and whitespace,
with at least one dash and one pipe. -/
def isPipeTableSeparator (line : Str) : Bool :=
  let trimmed := rustTrim line
  if trimmed = [] || !trimmed.contains '|' then false
  else
    (trimmed.all fun c => c = '-' || c = '|' || c = ':' || c = ' ' || c = '\t') &&
    trimmed.contains '-'

/-- Rust `is_pipe_table_line`: contains a pipe, non-empty, not a separator. -/
def isPipeTableLine (line : Str) : Bool :=
  let trimmed := rustTrim line
  trimmed.contains '|' && !trimmed.isEmpty && !isPipeTableSeparator trimmed

/-- Rust `is_box_table_line`: the first glyph after leading whitespace is a
box-drawing character produced by a previously rendered table. -/
def isBoxTableLine (text : Str) : Bool :=
  match (trimStart text).head? with
  | some c => c = '┌' || c = '├' || c = '└' || c = '│'
  | none => false

/-- Rust `Vec::insert(1, x)` for a non-empty vector. -/
def insertAt1 (x : Str) : List Str → List Str
  | [] => [x]
  | r :: rs => r :: x :: rs

/-- The cell-list computation inside `build_pipe_table_separator`: split the
trimmed header on `'|'` and drop the first/last part when introduced by a
leading/trailing pipe. -/
def pipeHeaderCells (trimmed : Str) : List Str :=
  let parts := splitOnChar '|' trimmed
  let parts := if trimmed.head? = some '|' && !parts.isEmpty then parts.tail else parts
  if trimmed.getLast? = some '|' && !parts.isEmpty then parts.dropLast else parts

/-- Rust `build_pipe_table_separator`: infer the column count from the first
pipe-table row (dropping the empty parts produced by outer pipes) and build
`"|"` followed by `" --- |"` per column; `none` when the count is zero. -/
def buildPipeTableSeparator (rows : List Str) : Option Str :=
  match rows.find? isPipeTableLine with
  | none => none
  | some header =>
    let colCount := (pipeHeaderCells (rustTrim header)).length
    if colCount = 0 then none
    else some ('|' :: (List.replicate colCount (lit " --- |")).flatten)

/-- The separator-insertion step of `normalize_table_blocks` (lines 235-239):
when no row is a separator and one can be synthesised, insert it as the
second row; otherwise leave the rows unchanged. -/
def withSeparator (rows : List Str) : List Str :=
  if !(rows.any isPipeTableSeparator) then
    match buildPipeTableSeparator rows with
    | some sep => insertAt1 sep rows
    | none => rows
  else rows

/-- Emit a finished table block: the (possibly separator-extended) rows
followed by the blank line `out.push(String::new())`. -/
def finishBlock (rows : List Str) : List Str := withSeparator rows ++ [[]]

/-- State of the `normalize_table_blocks` scan: outside any table block, or
inside one with the block's strip length and the rows collected so far. -/
inductive NormMode where
  | plain
  | block (stripLen : Nat) (rows : List Str)

/-- Processing of one line outside a table block (the head of the outer
`while` loop): box-drawing lines are dropped; a line whose post-prefix
content is a pipe-table line opens a block; anything else is copied through.
`none` models a panic. -/
def plainStep (line : Str) : Option (List Str × NormMode) :=
  if isBoxTableLine line then some ([], .plain)
  else
    match splitTableMarker line with
    | none => some ([line], .plain)
    | some (stripLen, content) =>
      if isPipeTableLine content then
        match stripLead line stripLen with
        | none => none
        | some first => some ([], .block stripLen [first])
      else some ([line], .plain)

/-- The line scan of `normalize_table_blocks`, fused into a single forward
pass: the Rust outer `while` with its inner row-collecting loop, where a
non-table line ends the block and is then reprocessed by the outer loop.
`none` models a panic (from `strip_prefix` slicing inside a character). -/
def normGo : NormMode → List Str → Option (List Str)
  | .plain, [] => some []
  | .block _ rows, [] => some (finishBlock rows)
  | .plain, line :: rest =>
    match plainStep line with
    | none => none
    | some (out, m) =>
      match normGo m rest with
      | none => none
      | some o => some (out ++ o)
  | .block stripLen rows, line :: rest =>
    if rustTrim line = [] then
      match normGo .plain rest with
      | none => none
      | some o => some (finishBlock rows ++ o)
    else if isBoxTableLine line then normGo (.block stripLen rows) rest
    else
      match stripLead line stripLen with
      | none => none
      | some stripped =>
        if isPipeTableLine stripped || isPipeTableSeparator stripped then
          normGo (.block stripLen (rows ++ [stripped])) rest
        else
          match plainStep line with
          | none => none
          | some (out, m) =>
            match normGo m rest with
            | none => none
            | some o => some ((finishBlock rows ++ out) ++ o)

/-- Rust `normalize_table_blocks`: split into lines, scan, rejoin, restoring the
input's trailing newline.  `none` models a panic. -/
def normalizeTableBlocks (input : Str) : Option Str :=
  match normGo .plain (splitNl input) with
  | none => none
  | some out =>
    some (joinNl out ++ (if input.getLast? = some '\n' then ['\n'] else []))

/-! ## Spec-modelled external collaborators -/

/-- Modelled from the spec: East-Asian-width-aware display-column counting
(§4.2), provided by the external `unicode-width` crate, whose source is not
part of this repository.  Representative wide (East-Asian `W`/`F`) ranges
count two columns; everything else one. -/
def charDisplayWidth (c : Char) : Nat :=
  let n := c.toNat
  if (0x1100 ≤ n ∧ n ≤ 0x115F) ∨ (0x2E80 ≤ n ∧ n ≤ 0x303E) ∨
     (0x3041 ≤ n ∧ n ≤ 0x33FF) ∨ (0x3400 ≤ n ∧ n ≤ 0x4DBF) ∨
     (0x4E00 ≤ n ∧ n ≤ 0x9FFF) ∨ (0xA000 ≤ n ∧ n ≤ 0xA4CF) ∨
     (0xAC00 ≤ n ∧ n ≤ 0xD7A3) ∨ (0xF900 ≤ n ∧ n ≤ 0xFAFF) ∨
     (0xFE30 ≤ n ∧ n ≤ 0xFE4F) ∨ (0xFF00 ≤ n ∧ n ≤ 0xFF60) ∨
     (0xFFE0 ≤ n ∧ n ≤ 0xFFE6) ∨ (0x20000 ≤ n ∧ n ≤ 0x3FFFD)
  then 2 else 1

/-- Display-column width of a string (`UnicodeWidthStr::width`). -/
def dispWidth (s : Str) : Nat := (s.map charDisplayWidth).sum

/-- A word carrying the style of the span it came from. -/
structure WrapWord where
  txt : Str
  style : RStyle
  deriving DecidableEq, Repr

/-- Words of one span: space-separated maximal non-space runs. -/
def spanWords (sp : RSpan) : List WrapWord :=
  ((splitOnChar ' ' sp.content).filter (· ≠ [])).map fun w => ⟨w, sp.style⟩

/-- Words of a line, in span order. -/
def lineWords (l : RLine) : List WrapWord := (l.spans.map spanWords).flatten

/-- Greedy packing: `cur` is the current physical line in reverse, `curW` its
display width including the indent; a word is separated by one space. -/
def packGo (width iw sw : Nat) :
    List WrapWord → List WrapWord → Nat → Bool → List (List WrapWord)
  | [], cur, _, _ => if cur = [] then [] else [cur.reverse]
  | w :: ws, cur, curW, firstLine =>
    let wW := dispWidth w.txt
    if cur = [] then
      packGo width iw sw ws [w] ((if firstLine then iw else sw) + wW) firstLine
    else if curW + 1 + wW ≤ width then
      packGo width iw sw ws (w :: cur) (curW + 1 + wW) firstLine
    else
      cur.reverse :: packGo width iw sw ws [w] (sw + wW) false

/-- Interleave words with single spaces. -/
def joinWordSpans : List WrapWord → List RSpan
  | [] => []
  | [w] => [⟨w.txt, w.style⟩]
  | w :: ws => ⟨w.txt, w.style⟩ :: spanRaw [' '] :: joinWordSpans ws

/-- Modelled from the spec: `crate::wrapping::word_wrap_line` (file
`tui/src/wrapping.rs`, not under `src/`).  §4.2: wrap a styled line into
physical lines at a target display width, honoring distinct
first-line/continuation indents and East-Asian-width-aware column counting,
breaking only at word boundaries and greedily packing. -/
def wordWrapLine (line : RLine) (width : Nat)
    (initIndent subIndent : List RSpan) : List RLine :=
  let ws := lineWords line
  if ws = [] then [⟨initIndent, line.style⟩]
  else
    let iw := ((initIndent.map RSpan.content).map dispWidth).sum
    let sw := ((subIndent.map RSpan.content).map dispWidth).sum
    (packGo width iw sw ws [] 0 true).mapIdx fun i grp =>
      ⟨(if i = 0 then initIndent else subIndent) ++ joinWordSpans grp, line.style⟩

/-- comfy_table `CellAlignment`. -/
inductive CellAlign where
  | left | center | right
  deriving DecidableEq, Repr

/-- Pad a cell's text to the column width, honoring its alignment. -/
def padCell (w : Nat) (a : CellAlign) (s : Str) : Str :=
  let sw := dispWidth s
  if w ≤ sw then s
  else
    match a with
    | .left => s ++ List.replicate (w - sw) ' '
    | .right => List.replicate (w - sw) ' ' ++ s
    | .center =>
      let l := (w - sw) / 2
      List.replicate l ' ' ++ s ++ List.replicate (w - sw - l) ' '

/-- Chunk a string into pieces of at most `w` characters (fuel-structural). -/
def chunksGo (w : Nat) : Nat → Str → List Str
  | _, [] => []
  | 0, s => [s]
  | fuel + 1, s => s.take w :: chunksGo w fuel (s.drop w)

/-- Cell-content wrapping into column-width chunks; one empty chunk for an
empty cell. -/
def chunksOf (w : Nat) (s : Str) : List Str :=
  if s = [] then [[]] else chunksGo (max 1 w) s.length s

/-- Natural (unwrapped) display width of column `i`. -/
def colNatWidth (allRows : List (List Str)) (i : Nat) : Nat :=
  (allRows.map fun r => dispWidth ((r.get? i).getD [])).foldl max 0

/-- Modelled from the spec: the bordered table rendering delegated to the
external `comfy_table` crate (UTF8 preset, `ContentArrangement::Dynamic`,
`set_width`), whose source is not part of this repository.  §4.4: a
bordered, width-budgeted, alignment-aware table; columns wider than the
budget are shrunk and their cell text wrapped. -/
def comfyRender (width : Nat) (header : Option (List Str))
    (body : List (List Str)) (aligns : List CellAlign) (ncols : Nat) :
    List Str :=
  let allRows := header.toList ++ body
  let nat := (List.range ncols).map (colNatWidth allRows)
  let overhead := 3 * ncols + 1
  let budget := width - overhead
  let colWs :=
    if nat.sum ≤ budget then nat
    else nat.map fun n => min n (max 1 (budget / max 1 ncols))
  let border (l m r : Char) : Str :=
    l :: ((colWs.map fun w => List.replicate (w + 2) '─').intersperse [m]).flatten ++ [r]
  let renderRow (row : List Str) : List Str :=
    let cells := (List.range ncols).map fun i =>
      chunksOf ((colWs.get? i).getD 1) ((row.get? i).getD [])
    let height := (cells.map List.length).foldl max 1
    (List.range height).map fun j =>
      '│' :: (((List.range ncols).map fun i =>
          ' ' :: padCell ((colWs.get? i).getD 1) ((aligns.get? i).getD .left)
                  ((((cells.get? i).getD []).get? j).getD []) ++ [' ']
        ).intersperse ['│']).flatten ++ ['│']
  let top := border '┌' '┬' '┐'
  let bot := border '└' '┴' '┘'
  let sep := border '├' '┼' '┤'
  match header with
  | some h =>
    [top] ++ renderRow h ++ (if body = [] then [] else [sep]) ++
      (body.map renderRow).flatten ++ [bot]
  | none => [top] ++ (body.map renderRow).flatten ++ [bot]

/-! ## Width-budget arithmetic of `render_table` -/

/-- Rust `TABLE_MAX_WIDTH_FALLBACK`. -/
def TABLE_MAX_WIDTH_FALLBACK : Nat := 160

/-- Rust `TABLE_MIN_WIDTH`. -/
def TABLE_MIN_WIDTH : Nat := 10

/-- Rust `self.wrap_width.or_else(terminal_width_cols).unwrap_or(TABLE_MAX_WIDTH_FALLBACK)`. -/
def tableMaxWidth (wrapWidth termWidth : Option Nat) : Nat :=
  ((wrapWidth.orElse fun _ => termWidth).getD TABLE_MAX_WIDTH_FALLBACK)

/-- Rust `max_width.saturating_sub(prefix_width).max(TABLE_MIN_WIDTH)` (natural
subtraction is saturating). -/
def tableAvailableWidth (wrapWidth termWidth : Option Nat) (prefixWidth : Nat) : Nat :=
  max (tableMaxWidth wrapWidth termWidth - prefixWidth) TABLE_MIN_WIDTH

/-- The width actually handed to the layout engine:
`available_width.min(u16::MAX as usize) as u16`. -/
def tableWidthBudget (wrapWidth termWidth : Option Nat) (prefixWidth : Nat) : Nat :=
  min (tableAvailableWidth wrapWidth termWidth prefixWidth) 65535

/-! ## The Writer (block/inline event reducer) -/

/-- Rust `MarkdownStyles`. -/
structure MarkdownStyles where
  h1 : RStyle
  h2 : RStyle
  h3 : RStyle
  h4 : RStyle
  h5 : RStyle
  h6 : RStyle
  code : RStyle
  emphasis : RStyle
  strong : RStyle
  strikethrough : RStyle
  orderedListMarker : RStyle
  unorderedListMarker : RStyle
  link : RStyle
  blockquote : RStyle
  deriving DecidableEq, Repr

/-- Rust `MarkdownStyles::default()` (the Writer's `styles` field is always this
default and never mutated). -/
def markdownStyles : MarkdownStyles :=
  { h1 := { bold := true, underlined := true }
    h2 := { bold := true }
    h3 := { bold := true, italic := true }
    h4 := { italic := true }
    h5 := { italic := true }
    h6 := { italic := true }
    code := { fg := some .cyan }
    emphasis := { italic := true }
    strong := { bold := true }
    strikethrough := { crossedOut := true }
    orderedListMarker := { fg := some .lightBlue }
    unorderedListMarker := {}
    link := { fg := some .cyan, underlined := true }
    blockquote := { fg := some .green } }

/-- pulldown-cmark `Alignment`. -/
inductive CmAlign where
  | noAlign | left | center | right
  deriving DecidableEq, Repr

/-- Rust `CmarkAlignment` → comfy `CellAlignment` (`None | Left` ⇒ left). -/
def cellAlignOf : CmAlign → CellAlign
  | .right => .right
  | .center => .center
  | .noAlign | .left => .left

/-- Rust `IndentContext`: one indent frame. -/
structure IndentContext where
  pre : List RSpan
  marker : Option (List RSpan)
  isList : Bool
  deriving DecidableEq, Repr

/-- Rust `TableState`. -/
structure TableState where
  alignments : List CmAlign
  rows : List (List Str) := []
  currentRow : List Str := []
  currentCell : Str := []
  headerRows : Nat := 0
  inHead : Bool := false
  rowOpen : Bool := false
  deriving DecidableEq, Repr

/-- Rust `TableState::start_row`. -/
def TableState.startRow (t : TableState) : TableState :=
  { t with currentRow := [], currentCell := [], rowOpen := true }

/-- Rust `TableState::end_row`. -/
def TableState.endRow (t : TableState) : TableState :=
  let t :=
    if t.currentCell ≠ [] then
      { t with currentRow := t.currentRow ++ [rustTrim t.currentCell], currentCell := [] }
    else t
  let t :=
    if t.currentRow ≠ [] then
      { t with rows := t.rows ++ [t.currentRow], currentRow := [],
               headerRows := if t.inHead then t.headerRows + 1 else t.headerRows }
    else t
  { t with rowOpen := false }

/-- Rust `TableState::start_cell`. -/
def TableState.startCell (t : TableState) : TableState := { t with currentCell := [] }

/-- Rust `TableState::end_cell`. -/
def TableState.endCell (t : TableState) : TableState :=
  { t with currentRow := t.currentRow ++ [rustTrim t.currentCell], currentCell := [] }

/-- Rust `TableState::push_text`. -/
def TableState.pushText (t : TableState) (s : Str) : TableState :=
  if t.currentCell ≠ [] then { t with currentCell := t.currentCell ++ s }
  else { t with currentCell := s }

/-- Rust `TableState::push_space`. -/
def TableState.pushSpace (t : TableState) : TableState :=
  if t.currentCell.getLast? ≠ some ' ' then { t with currentCell := t.currentCell ++ [' '] }
  else t

/-- Rust `BufferedCodeBlock`. -/
structure BufferedCodeBlock where
  lang : HighlightLanguage
  lines : List Str
  deriving DecidableEq, Repr

/-- pulldown-cmark `CodeBlockKind`. -/
inductive CodeKind where
  | fenced (info : Str)
  | indented
  deriving DecidableEq, Repr

/-- pulldown-cmark `Tag` (the event vocabulary §4.1 consumes). -/
inductive MdTag where
  | paragraph
  | heading (level : Nat)
  | blockQuote
  | codeBlock (kind : CodeKind)
  | list (start : Option Nat)
  | item
  | emphasis
  | strong
  | strikethrough
  | link (dest : Str)
  | table (aligns : List CmAlign)
  | tableHead
  | tableRow
  | tableCell
  | htmlBlock
  | footnoteDefinition
  | image
  | metadataBlock
  deriving DecidableEq, Repr

/-- pulldown-cmark `TagEnd`. -/
inductive MdTagEnd where
  | paragraph
  | heading
  | blockQuote
  | codeBlock
  | list
  | item
  | emphasis
  | strong
  | strikethrough
  | link
  | table
  | tableHead
  | tableRow
  | tableCell
  | htmlBlock
  | footnoteDefinition
  | image
  | metadataBlock
  deriving DecidableEq, Repr

/-- pulldown-cmark `Event`. -/
inductive MdEvent where
  | start (t : MdTag)
  | stop (t : MdTagEnd)
  | text (s : Str)
  | code (s : Str)
  | softBreak
  | hardBreak
  | rule
  | html (s : Str)
  | inlineHtml (s : Str)
  | footnoteReference
  | taskListMarker
  deriving DecidableEq, Repr

/-- Immutable render configuration: the Writer's `wrap_width` and
`tables_enabled` fields (set at construction, never mutated) plus the
external tree-sitter oracle. -/
structure RenderCfg where
  wrapWidth : Option Nat
  tablesEnabled : Bool
  oracle : HlOracle

/-- The Writer's mutable state. -/
structure Writer where
  text : List RLine := []
  inlineStyles : List RStyle := []
  indentStack : List IndentContext := []
  listIndices : List (Option Nat) := []
  link : Option Str := none
  needsNewline : Bool := false
  pendingMarkerLine : Bool := false
  inParagraph : Bool := false
  inCodeBlock : Bool := false
  tableState : Option TableState := none
  currentLineContent : Option RLine := none
  currentInitialIndent : List RSpan := []
  currentSubsequentIndent : List RSpan := []
  currentLineStyle : RStyle := noStyle
  currentLineInCodeBlock : Bool := false
  bufferedCodeBlock : Option BufferedCodeBlock := none

/-- Rust `Writer::new(...)` state. -/
def initialWriter : Writer := {}

/-- Index of the last element satisfying `p` (`Iterator::rposition` /
reversed enumerate-find). -/
def findLastIdx (p : α → Bool) (xs : List α) : Option Nat :=
  (xs.reverse.findIdx? p).map fun j => xs.length - 1 - j

/-- Rust `Writer::prefix_spans`. -/
def Writer.prefixSpans (st : Writer) (pendingMarkerLine : Bool) : List RSpan :=
  let lastMarkerIndex :=
    if pendingMarkerLine then
      findLastIdx (fun ctx => ctx.marker.isSome) st.indentStack
    else none
  let lastListIndex := findLastIdx (fun ctx => ctx.isList) st.indentStack
  (st.indentStack.enum.map fun p =>
    let i := p.1
    let ctx := p.2
    if pendingMarkerLine then
      if decide (lastMarkerIndex = some i) && ctx.marker.isSome then ctx.marker.getD []
      else if ctx.isList &&
          (match lastMarkerIndex with | some idx => decide (i < idx) | none => false) then []
      else ctx.pre
    else if ctx.isList && !decide (lastListIndex = some i) then []
    else ctx.pre).flatten

/-- Rust `Writer::flush_current_line`.  Wrapped lines take the recorded line
style (`line_to_static(&wrapped).style(style)`); code-block lines and
pre-rendered table borders are emitted verbatim behind the initial indent. -/
def Writer.flushCurrentLine (cfg : RenderCfg) (st : Writer) : Writer :=
  match st.currentLineContent with
  | none => st
  | some line =>
    let style := st.currentLineStyle
    let lineStr := lineToPlainString line
    let noWrapTable := isBoxTableLine lineStr
    let newLines : List RLine :=
      if !st.currentLineInCodeBlock && !noWrapTable then
        match cfg.wrapWidth with
        | some width =>
          (wordWrapLine line width st.currentInitialIndent st.currentSubsequentIndent).map
            fun wrapped => { wrapped with style := style }
        | none => [⟨st.currentInitialIndent ++ line.spans, style⟩]
      else [⟨st.currentInitialIndent ++ line.spans, style⟩]
    { st with text := st.text ++ newLines,
              currentLineContent := none,
              currentInitialIndent := [],
              currentSubsequentIndent := [],
              currentLineInCodeBlock := false }

/-- Rust `Writer::push_line`. -/
def Writer.pushLine (cfg : RenderCfg) (st : Writer) (line : RLine) : Writer :=
  let st := st.flushCurrentLine cfg
  let blockquoteActive :=
    st.indentStack.any fun ctx => ctx.pre.any fun sp => sp.content.contains '>'
  let style := if blockquoteActive then markdownStyles.blockquote else line.style
  let wasPending := st.pendingMarkerLine
  { st with currentInitialIndent := st.prefixSpans wasPending,
            currentSubsequentIndent := st.prefixSpans false,
            currentLineStyle := style,
            currentLineContent := some line,
            currentLineInCodeBlock := st.inCodeBlock,
            pendingMarkerLine := false }

/-- Rust `Writer::push_span`. -/
def Writer.pushSpan (cfg : RenderCfg) (st : Writer) (span : RSpan) : Writer :=
  match st.currentLineContent with
  | some line =>
    { st with currentLineContent := some { line with spans := line.spans ++ [span] } }
  | none => st.pushLine cfg ⟨[span], noStyle⟩

/-- Rust `Writer::push_blank_line`. -/
def Writer.pushBlankLine (cfg : RenderCfg) (st : Writer) : Writer :=
  let st := st.flushCurrentLine cfg
  if st.indentStack.all (fun ctx => ctx.isList) then
    { st with text := st.text ++ [lineDefault] }
  else ((st.pushLine cfg lineDefault).flushCurrentLine cfg)

/-- Rust `Writer::start_paragraph`. -/
def Writer.startParagraph (cfg : RenderCfg) (st : Writer) : Writer :=
  let st := if st.needsNewline then st.pushBlankLine cfg else st
  let st := st.pushLine cfg lineDefault
  { st with needsNewline := false, inParagraph := true }

/-- Rust `Writer::end_paragraph`. -/
def Writer.endParagraph (st : Writer) : Writer :=
  { st with needsNewline := true, inParagraph := false, pendingMarkerLine := false }

/-- Heading style by level (H1 strongest). -/
def headingStyleOf (level : Nat) : RStyle :=
  match level with
  | 1 => markdownStyles.h1
  | 2 => markdownStyles.h2
  | 3 => markdownStyles.h3
  | 4 => markdownStyles.h4
  | 5 => markdownStyles.h5
  | _ => markdownStyles.h6

/-- Rust `Writer::start_heading`. -/
def Writer.startHeading (cfg : RenderCfg) (st : Writer) (level : Nat) : Writer :=
  let st :=
    if st.needsNewline then { (st.pushLine cfg lineDefault) with needsNewline := false }
    else st
  let headingStyle := headingStyleOf level
  let content := List.replicate level '#' ++ [' ']
  let st := st.pushLine cfg ⟨[mkSpan content headingStyle], noStyle⟩
  let current := (st.inlineStyles.getLast?).getD noStyle
  { st with inlineStyles := st.inlineStyles ++ [current.patch headingStyle],
            needsNewline := false }

/-- Rust `Writer::end_heading`. -/
def Writer.endHeading (st : Writer) : Writer :=
  { st with needsNewline := true, inlineStyles := st.inlineStyles.dropLast }

/-- Rust `Writer::start_blockquote`. -/
def Writer.startBlockquote (cfg : RenderCfg) (st : Writer) : Writer :=
  let st :=
    if st.needsNewline then { (st.pushBlankLine cfg) with needsNewline := false }
    else st
  { st with indentStack := st.indentStack ++ [⟨[spanRaw (lit "> ")], none, false⟩] }

/-- Rust `Writer::end_blockquote`. -/
def Writer.endBlockquote (st : Writer) : Writer :=
  { st with indentStack := st.indentStack.dropLast, needsNewline := true }

/-- Rust `Writer::push_inline_style`. -/
def Writer.pushInlineStyle (st : Writer) (style : RStyle) : Writer :=
  let current := (st.inlineStyles.getLast?).getD noStyle
  { st with inlineStyles := st.inlineStyles ++ [current.patch style] }

/-- Rust `Writer::pop_inline_style`. -/
def Writer.popInlineStyle (st : Writer) : Writer :=
  { st with inlineStyles := st.inlineStyles.dropLast }

/-- Rust `Writer::push_link`. -/
def Writer.pushLink (st : Writer) (dest : Str) : Writer := { st with link := some dest }

/-- Rust `Writer::pop_link`: destination appended as `" (<url>)"`. -/
def Writer.popLink (cfg : RenderCfg) (st : Writer) : Writer :=
  match st.link with
  | none => st
  | some l =>
    let st := { st with link := none }
    let st := st.pushSpan cfg (spanRaw (lit " ("))
    let st := st.pushSpan cfg (mkSpan l markdownStyles.link)
    st.pushSpan cfg (spanRaw (lit ")"))

/-- Rust `Writer::start_list`. -/
def Writer.startList (cfg : RenderCfg) (st : Writer) (index : Option Nat) : Writer :=
  let st :=
    if st.listIndices.isEmpty && st.needsNewline then st.pushLine cfg lineDefault
    else st
  { st with listIndices := st.listIndices ++ [index] }

/-- Rust `Writer::end_list`. -/
def Writer.endList (st : Writer) : Writer :=
  { st with listIndices := st.listIndices.dropLast, needsNewline := true }

/-- Rust `format!` right-alignment in a field of the given width (numeric values
pad on the left; no truncation). -/
def padLeft (width : Nat) (s : Str) : Str :=
  List.replicate (width - s.length) ' ' ++ s

/-- Rust `Writer::start_item`: one-shot marker, column width `4·depth − 3`,
continuation indent width `+1` (unordered) or `+2` (ordered).  The ordered
counter is incremented and the marker shows `*index - 1`, i.e. the value
before the increment. -/
def Writer.startItem (st : Writer) : Writer :=
  let st1 := { st with pendingMarkerLine := true }
  let depth := st1.listIndices.length
  let isOrdered := ((st1.listIndices.getLast?).map Option.isSome).getD false
  let width := depth * 4 - 3
  let (marker, newIndices) :=
    match st1.listIndices.getLast? with
    | none => (none, st1.listIndices)
    | some none =>
      (some [mkSpan (List.replicate (width - 1) ' ' ++ lit "- ")
               markdownStyles.unorderedListMarker],
       st1.listIndices)
    | some (some i) =>
      (some [mkSpan (padLeft width (toDecimal i) ++ lit ". ")
               markdownStyles.orderedListMarker],
       st1.listIndices.dropLast ++ [some (i + 1)])
  let indentPre : List RSpan :=
    if depth = 0 then []
    else [spanRaw (List.replicate (if isOrdered then width + 2 else width + 1) ' ')]
  { st1 with listIndices := newIndices,
             indentStack := st1.indentStack ++ [⟨indentPre, marker, true⟩],
             needsNewline := false }

/-- Rust `Writer::start_codeblock`. -/
def Writer.startCodeblock (cfg : RenderCfg) (st : Writer) (lang : Option Str)
    (indent : Option RSpan) : Writer :=
  let st := st.flushCurrentLine cfg
  let st := if st.text ≠ [] then st.pushBlankLine cfg else st
  { st with inCodeBlock := true,
            bufferedCodeBlock :=
              (lang.bind fromFenceInfo).map fun l => ⟨l, []⟩,
            indentStack := st.indentStack ++ [⟨[indent.getD (spanRaw [])], none, false⟩],
            needsNewline := true }

/-- Rust `Writer::end_codeblock`: a buffered block is highlighted and its lines
appended through `push_line` (while `in_code_block` is still set), then the
frame is popped.  `none` models a panic propagated from the highlighter. -/
def Writer.endCodeblock (cfg : RenderCfg) (st : Writer) : Option Writer :=
  let pushed : Option Writer :=
    match st.bufferedCodeBlock with
    | none => some st
    | some buffer =>
      let source := joinNl buffer.lines
      match highlightToLines buffer.lang source cfg.oracle with
      | .panicked => none
      | .lines ls =>
        some (ls.foldl (fun s l => s.pushLine cfg l) { st with bufferedCodeBlock := none })
  pushed.map fun st =>
    { st with needsNewline := true, inCodeBlock := false,
              indentStack := st.indentStack.dropLast }

/-- The per-line loop of `Writer::text` (`for (i, line) in text.lines()`). -/
def Writer.textLines (cfg : RenderCfg) : Writer → List Str → Bool → Writer
  | st, [], _ => st
  | st, line :: rest, first =>
    let st :=
      if st.needsNewline then { (st.pushLine cfg lineDefault) with needsNewline := false }
      else st
    let st := if first then st else st.pushLine cfg lineDefault
    let span := mkSpan line ((st.inlineStyles.getLast?).getD noStyle)
    let st := st.pushSpan cfg span
    Writer.textLines cfg st rest false

/-- Rust `Writer::text`. -/
def Writer.textEv (cfg : RenderCfg) (st : Writer) (s : Str) : Writer :=
  match st.bufferedCodeBlock with
  | some buffer =>
    { st with bufferedCodeBlock := some { buffer with lines := buffer.lines ++ rustLines s },
              needsNewline := false, pendingMarkerLine := false }
  | none =>
    let st := if st.pendingMarkerLine then st.pushLine cfg lineDefault else st
    let st := { st with pendingMarkerLine := false }
    let st :=
      if st.inCodeBlock && !st.needsNewline then
        let hasContent :=
          match st.currentLineContent with
          | some line => !line.spans.isEmpty
          | none =>
            match st.text.getLast? with
            | some line => !line.spans.isEmpty
            | none => false
        if hasContent then st.pushLine cfg lineDefault else st
      else st
    let st := Writer.textLines cfg st (rustLines s) true
    { st with needsNewline := false }

/-- Rust `Writer::code`. -/
def Writer.codeEv (cfg : RenderCfg) (st : Writer) (s : Str) : Writer :=
  let st :=
    if st.pendingMarkerLine then
      { (st.pushLine cfg lineDefault) with pendingMarkerLine := false }
    else st
  st.pushSpan cfg (mkSpan s markdownStyles.code)

/-- The per-line loop of `Writer::html`. -/
def Writer.htmlLines (cfg : RenderCfg) : Writer → List Str → Bool → Writer
  | st, [], _ => st
  | st, line :: rest, first =>
    let st :=
      if st.needsNewline then { (st.pushLine cfg lineDefault) with needsNewline := false }
      else st
    let st := if first then st else st.pushLine cfg lineDefault
    let style := (st.inlineStyles.getLast?).getD noStyle
    let st := st.pushSpan cfg (mkSpan line style)
    Writer.htmlLines cfg st rest false

/-- Rust `Writer::html`. -/
def Writer.htmlEv (cfg : RenderCfg) (st : Writer) (s : Str) (inline : Bool) : Writer :=
  let st := { st with pendingMarkerLine := false }
  let st := Writer.htmlLines cfg st (rustLines s) true
  { st with needsNewline := !inline }

/-- Rust `Writer::hard_break`. -/
def Writer.hardBreakEv (cfg : RenderCfg) (st : Writer) : Writer :=
  match st.bufferedCodeBlock with
  | some buffer =>
    { st with bufferedCodeBlock := some { buffer with lines := buffer.lines ++ [[]] } }
  | none => st.pushLine cfg lineDefault

/-- Rust `Writer::soft_break`. -/
def Writer.softBreakEv (cfg : RenderCfg) (st : Writer) : Writer :=
  match st.bufferedCodeBlock with
  | some buffer =>
    { st with bufferedCodeBlock := some { buffer with lines := buffer.lines ++ [[]] } }
  | none => st.pushLine cfg lineDefault

/-- The `Event::Rule` arm of `handle_event`. -/
def Writer.ruleEv (cfg : RenderCfg) (st : Writer) : Writer :=
  let st := st.flushCurrentLine cfg
  let st := if st.text ≠ [] then st.pushBlankLine cfg else st
  let st := st.pushLine cfg (lineFrom (lit "———"))
  { st with needsNewline := true }

/-- Rust `Writer::start_table`. -/
def Writer.startTable (cfg : RenderCfg) (st : Writer) (aligns : List CmAlign) : Writer :=
  let st := if st.needsNewline then st.pushBlankLine cfg else st
  let st := st.flushCurrentLine cfg
  { st with inParagraph := false, tableState := some { alignments := aligns },
            needsNewline := false }

/-- Rust `Writer::render_table`: pad rows to the column count, split off the
header, compute the width budget, and push the layout engine's lines. -/
def Writer.renderTable (cfg : RenderCfg) (term : Option Nat) (st : Writer)
    (table : TableState) : Writer :=
  if table.rows = [] then st
  else
    let columnCount := table.rows.foldl (fun m r => max m r.length) table.alignments.length
    if columnCount = 0 then st
    else
      let rows := table.rows.map fun r => r ++ List.replicate (columnCount - r.length) []
      let (header, body) :=
        match rows with
        | [] => (none, ([] : List (List Str)))
        | r :: rs => if table.headerRows > 0 then (some r, rs) else (none, rows)
      let prefixWidth :=
        ((st.prefixSpans st.pendingMarkerLine).map fun sp => dispWidth sp.content).sum
      let budget := tableWidthBudget cfg.wrapWidth term prefixWidth
      let aligns := (List.range columnCount).map fun i =>
        match table.alignments.get? i with
        | some a => cellAlignOf a
        | none => CellAlign.left
      let rendered := comfyRender budget header body aligns columnCount
      let st := rendered.foldl (fun s l => s.pushLine cfg (lineFrom l)) st
      st.flushCurrentLine cfg

/-- Rust `Writer::finish_table`. -/
def Writer.finishTable (cfg : RenderCfg) (term : Option Nat) (st : Writer) : Writer :=
  match st.tableState with
  | none => st
  | some table =>
    let st := Writer.renderTable cfg term { st with tableState := none } table
    { st with needsNewline := true }

/-- Rust `Writer::handle_table_event` (always consumes the event: the Rust
function ends with `true`). -/
def Writer.handleTableEvent (cfg : RenderCfg) (term : Option Nat) (st : Writer)
    (ev : MdEvent) : Writer :=
  match st.tableState with
  | none => st
  | some table =>
    match ev with
    | .start .tableHead => { st with tableState := some { table with inHead := true } }
    | .stop .tableHead =>
      let table := if table.rowOpen then table.endRow else table
      { st with tableState := some { table with inHead := false } }
    | .start .tableRow => { st with tableState := some table.startRow }
    | .stop .tableRow => { st with tableState := some table.endRow }
    | .start .tableCell =>
      let table := if !table.rowOpen then table.startRow else table
      { st with tableState := some table.startCell }
    | .stop .tableCell => { st with tableState := some table.endCell }
    | .stop .table =>
      let st := { st with tableState := some (if table.rowOpen then table.endRow else table) }
      st.finishTable cfg term
    | .text s => { st with tableState := some (table.pushText s) }
    | .code s => { st with tableState := some (table.pushText s) }
    | .softBreak => { st with tableState := some table.pushSpace }
    | .hardBreak => { st with tableState := some table.pushSpace }
    | _ => st

/-- Rust `Writer::start_tag`. -/
def Writer.startTag (cfg : RenderCfg) (st : Writer) (t : MdTag) : Writer :=
  match t with
  | .paragraph => st.startParagraph cfg
  | .heading level => st.startHeading cfg level
  | .blockQuote => st.startBlockquote cfg
  | .codeBlock kind =>
    let indent :=
      match kind with
      | .fenced _ => none
      | .indented => some (spanRaw (List.replicate 4 ' '))
    let lang :=
      match kind with
      | .fenced info => some info
      | .indented => none
    st.startCodeblock cfg lang indent
  | .list start => st.startList cfg start
  | .item => st.startItem
  | .emphasis => st.pushInlineStyle markdownStyles.emphasis
  | .strong => st.pushInlineStyle markdownStyles.strong
  | .strikethrough => st.pushInlineStyle markdownStyles.strikethrough
  | .link dest => st.pushLink dest
  | .table aligns => if cfg.tablesEnabled then st.startTable cfg aligns else st
  | .tableHead => st
  | .tableRow => st
  | .tableCell => st
  | .htmlBlock => st
  | .footnoteDefinition => st
  | .image => st
  | .metadataBlock => st

/-- Rust `Writer::end_tag`.  `none` models a panic (from the highlighter). -/
def Writer.endTag (cfg : RenderCfg) (st : Writer) (t : MdTagEnd) : Option Writer :=
  match t with
  | .paragraph => some st.endParagraph
  | .heading => some st.endHeading
  | .blockQuote => some st.endBlockquote
  | .codeBlock => st.endCodeblock cfg
  | .list => some st.endList
  | .item => some { st with indentStack := st.indentStack.dropLast, pendingMarkerLine := false }
  | .emphasis => some st.popInlineStyle
  | .strong => some st.popInlineStyle
  | .strikethrough => some st.popInlineStyle
  | .link => some (st.popLink cfg)
  | .table => some st
  | .tableHead => some st
  | .tableRow => some st
  | .tableCell => some st
  | .htmlBlock => some st
  | .footnoteDefinition => some st
  | .image => some st
  | .metadataBlock => some st

/-- The non-table arm of `handle_event`. -/
def Writer.handleNormal (cfg : RenderCfg) (st : Writer) (ev : MdEvent) : Option Writer :=
  match ev with
  | .start t => some (st.startTag cfg t)
  | .stop t => st.endTag cfg t
  | .text s => some (st.textEv cfg s)
  | .code s => some (st.codeEv cfg s)
  | .softBreak => some (st.softBreakEv cfg)
  | .hardBreak => some (st.hardBreakEv cfg)
  | .rule => some (st.ruleEv cfg)
  | .html s => some (st.htmlEv cfg s false)
  | .inlineHtml s => some (st.htmlEv cfg s true)
  | .footnoteReference => some st
  | .taskListMarker => some st

/-- Rust `Writer::handle_event`: while a table is open every event is consumed by
`handle_table_event`. -/
def Writer.handleEvent (cfg : RenderCfg) (term : Option Nat) (st : Writer)
    (ev : MdEvent) : Option Writer :=
  if st.tableState.isSome then some (st.handleTableEvent cfg term ev)
  else st.handleNormal cfg ev

/-- Rust `Writer::run` on an event stream, returning the output lines; the
ambient terminal width `term` is what `terminal_width_cols()` would report.
`none` models a panic. -/
def runWriter (cfg : RenderCfg) (term : Option Nat) (evs : List MdEvent) :
    Option (List RLine) :=
  (evs.foldlM (fun st ev => Writer.handleEvent cfg term st ev) initialWriter).map
    fun st => (st.flushCurrentLine cfg).text

/-- Rust `render_markdown_text_with_width`: optional table pre-pass, then the
external structural parser (abstracted as `parse`, §6), then the Writer.
`none` models a panic. -/
def renderMarkdownTextWithWidth (parse : Str → List MdEvent) (oracle : HlOracle)
    (input : Str) (width : Option Nat) (tablesOn : Bool) (term : Option Nat) :
    Option (List RLine) :=
  let normalized : Option Str :=
    if tablesOn then normalizeTableBlocks input else some input
  match normalized with
  | none => none
  | some n =>
    runWriter { wrapWidth := width, tablesEnabled := tablesOn, oracle := oracle } term (parse n)

/-! ## Claim-side definitions -/

/-- Reconstructed text of a highlight result (`none` when the event loop
panicked). -/
def hlText : HlOut → Option Str
  | .lines ls => some (reconstruct ls)
  | .panicked => none

/-- Pipe-delimited cells as claim C4 words it: drop a single *leading empty
cell* and a single *trailing empty cell* when produced by outer pipes.
Stated from the claim's words, to be compared with `pipeHeaderCells`. -/
def claimCells (t : Str) : List Str :=
  let cells := splitOnChar '|' t
  let cells :=
    if decide (t.head? = some '|') && decide (cells.head? = some []) then cells.tail else cells
  if decide (t.getLast? = some '|') && decide (cells.getLast? = some []) then cells.dropLast
  else cells

/-- Column count as claim C4 words it: the number of pipe-delimited cells of
the first pipe-table row after dropping a single leading and a single
trailing empty cell produced by outer pipes. -/
def claimColumnCount (r : Str) : Nat := (claimCells (rustTrim r)).length

/-- An already-valid pipe-table block, as claim C3 describes it: a header
pipe-table row first, some separator row, and every line an outer-pipe
table/separator line without embedded newlines (so it carries no structural
prefix for `split_table_prefix` to strip). -/
def isValidTableBlock (ls : List Str) : Bool :=
  (match ls with
   | [] => false
   | l0 :: _ => isPipeTableLine l0) &&
  ls.all (fun l => decide (l.head? = some '|') && !l.contains '\n' &&
                   (isPipeTableLine l || isPipeTableSeparator l)) &&
  ls.any isPipeTableSeparator

end Codex

namespace Codex

/-! # Theorems -/

/-! ## C1 — highlight fidelity (code bug: the dotenv `export` path) -/

/-- C1: the fidelity claim fails on the code.  For the supported language
tag `dotenv` (fence ```` ```env ````, `.env` files) and the source text
`"export A=b"`, the emitted spans concatenate to `"export export A=b"`:
`highlight_dotenv_to_lines` pushes the `"export "` prefix as a keyword span
and then slices `key_segment` from the start of the line rather than from
`idx`, duplicating the prefix.  This contradicts the fidelity invariant the
spec states unconditionally (and which the repository's own tests assert
via their `reconstructed` helper). -/
theorem c1_dotenv_export_fidelity_bug :
    ∀ oracle : HlOracle,
      hlText (highlightToLines .dotenv (lit "export A=b") oracle) =
        some (lit "export export A=b") ∧
      lit "export export A=b" ≠ lit "export A=b" := by
  intro oracle
  exact ⟨rfl, by decide⟩

/-! ## C2 — no panics (code bug: `strip_prefix` char-boundary panic) -/

/-- C2: the no-panic claim fails on the code.  With tables enabled, the
input `" | a |\né|x"` opens a table block with a one-byte strip length from
the first line; `strip_prefix` then slices the continuation line `"é|x"` at
byte index 1, inside the two-byte `é`, which panics in Rust
(`byte index 1 is not a char boundary`).  The panic escapes
`normalize_table_blocks` and hence `render_markdown_text_with_width`,
whatever the parser, highlighter, width and terminal report. -/
theorem c2_strip_prefix_char_boundary_panic :
    ∀ (parse : Str → List MdEvent) (oracle : HlOracle) (width term : Option Nat),
      normalizeTableBlocks (lit " | a |\né|x") = none ∧
      renderMarkdownTextWithWidth parse oracle (lit " | a |\né|x") width true term = none := by
  intro parse oracle width term
  have h : normalizeTableBlocks (lit " | a |\né|x") = none := by decide
  refine ⟨h, ?_⟩
  simp [renderMarkdownTextWithWidth, h]

/-! ## C6 — code blocks never wrapped, byte-exact (code bug via dotenv) -/

/-- C6: the round-trip half of the claim fails on the code.  A fenced
```` ```env ```` block containing `"export A=b"` is emitted as a single
physical line even at wrap width 5 (the wrap exemption holds), but its span
texts concatenate to `"export export A=b"`, not to the source line: the
highlighted path appends the dotenv highlighter's output, which duplicates
the `export` prefix (same defect as C1). -/
theorem c6_codeblock_env_roundtrip_bug :
    (runWriter { wrapWidth := some 5, tablesEnabled := false, oracle := fun _ _ => none }
        none
        [.start (.codeBlock (.fenced (lit "env"))), .text (lit "export A=b\n"),
         .stop .codeBlock]).map (fun ls => ls.map lineToPlainString) =
      some [lit "export export A=b"] ∧
    lit "export export A=b" ≠ lit "export A=b" := by
  constructor
  · decide
  · decide

/-! ## C7 — table width budget (corrected: capped at `u16::MAX`) -/

/-- C7 counterexample: the claim's formula omits the `u16::MAX` cap.  With a
configured wrap width of 70000 and an empty prefix, the claim's budget is
`max (70000 - 0) 10 = 70000`, but the width handed to the layout engine is
`min 70000 65535 = 65535`. -/
theorem c7_width_budget_u16_cap_counterexample :
    tableWidthBudget (some 70000) none 0 ≠ max (70000 - 0) 10 := by decide

/-- C7 amended: the width budget handed to the layout engine equals the
configured wrap width if present, otherwise the terminal width if
obtainable, otherwise 160, minus the prefix display width with saturating
subtraction, floored at 10 — and additionally capped at 65535 (`u16::MAX`)
by the `set_width` conversion.  The result is always at least 10, and a
prefix at least as wide as the maximum width saturates to exactly the
10-column floor (never a panic: the subtraction is `saturating_sub`). -/
theorem c7_width_budget_formula (w t : Option Nat) (p : Nat) :
    tableWidthBudget w t p =
      min (max ((match w with
                 | some x => x
                 | none =>
                   match t with
                   | some y => y
                   | none => 160) - p) 10) 65535 ∧
    10 ≤ tableWidthBudget w t p ∧
    (tableMaxWidth w t ≤ p → tableWidthBudget w t p = 10) := by
  cases w <;> cases t <;>
    simp [tableWidthBudget, tableAvailableWidth, tableMaxWidth, Option.orElse,
      TABLE_MAX_WIDTH_FALLBACK, TABLE_MIN_WIDTH] <;> omega

/-- C7 witness: the amended formula evaluated where the prefix is wider than
the available width. -/
theorem c7_width_budget_formula_witness :
    tableWidthBudget (some 5) none 7 = 10 :=
  (c7_width_budget_formula (some 5) none 7).2.2 (by decide)

/-! ## C9 — determinism (corrected: table layout reads the terminal width) -/

/-- C9 counterexample: with no wrap width configured and a table in the
stream, the output depends on the ambient terminal width
(`render_table` falls back to `terminal_width_cols()`): the same
(events, width = none, tables on) tuple renders differently at terminal
widths 20 and 80. -/
theorem c9_terminal_width_dependence :
    runWriter { wrapWidth := none, tablesEnabled := true, oracle := fun _ _ => none }
        (some 20)
        [.start (.table [.noAlign]), .start .tableHead, .start .tableCell,
         .text (lit "aaaaaaaaaaaaaaaaaaaaaaaaaaaaaa"), .stop .tableCell, .stop .tableHead,
         .start .tableRow, .start .tableCell, .text (lit "b"), .stop .tableCell,
         .stop .tableRow, .stop .table] ≠
      runWriter { wrapWidth := none, tablesEnabled := true, oracle := fun _ _ => none }
        (some 80)
        [.start (.table [.noAlign]), .start .tableHead, .start .tableCell,
         .text (lit "aaaaaaaaaaaaaaaaaaaaaaaaaaaaaa"), .stop .tableCell, .stop .tableHead,
         .start .tableRow, .start .tableCell, .text (lit "b"), .stop .tableCell,
         .stop .tableRow, .stop .table] := by decide

/-- With a configured wrap width, the table width budget ignores the
terminal width (`Some(w).or_else(..)` short-circuits). -/
theorem tableWidthBudget_term_irrel (w : Nat) (t1 t2 : Option Nat) (p : Nat) :
    tableWidthBudget (some w) t1 p = tableWidthBudget (some w) t2 p := by
  simp [tableWidthBudget, tableAvailableWidth, tableMaxWidth, Option.orElse]

/-- Rust `render_table` ignores the terminal width when a wrap width is
configured. -/
theorem renderTable_term_irrel (w : Nat) (tOn : Bool) (oracle : HlOracle)
    (t1 t2 : Option Nat) (st : Writer) (table : TableState) :
    Writer.renderTable ⟨some w, tOn, oracle⟩ t1 st table =
      Writer.renderTable ⟨some w, tOn, oracle⟩ t2 st table := by
  simp only [Writer.renderTable, tableWidthBudget_term_irrel w t1 t2]

/-- Rust `finish_table` ignores the terminal width when a wrap width is
configured. -/
theorem finishTable_term_irrel (w : Nat) (tOn : Bool) (oracle : HlOracle)
    (t1 t2 : Option Nat) (st : Writer) :
    Writer.finishTable ⟨some w, tOn, oracle⟩ t1 st =
      Writer.finishTable ⟨some w, tOn, oracle⟩ t2 st := by
  unfold Writer.finishTable
  cases st.tableState with
  | none => rfl
  | some table => simp only [renderTable_term_irrel w tOn oracle t1 t2]

/-- Rust `handle_table_event` ignores the terminal width when a wrap width is
configured (only the table-end arm reads it, through `render_table`). -/
theorem handleTableEvent_term_irrel (w : Nat) (tOn : Bool) (oracle : HlOracle)
    (t1 t2 : Option Nat) (st : Writer) (ev : MdEvent) :
    Writer.handleTableEvent ⟨some w, tOn, oracle⟩ t1 st ev =
      Writer.handleTableEvent ⟨some w, tOn, oracle⟩ t2 st ev := by
  unfold Writer.handleTableEvent
  cases hts : st.tableState with
  | none => rfl
  | some table =>
    cases ev with
    | start t => cases t <;> rfl
    | stop t =>
      cases t <;> simp only [finishTable_term_irrel w tOn oracle t1 t2]
    | _ => rfl

/-- One step of the event loop ignores the terminal width when a wrap width
is configured (the non-table arm never reads it). -/
theorem handleEvent_term_irrel (w : Nat) (tOn : Bool) (oracle : HlOracle)
    (t1 t2 : Option Nat) (st : Writer) (ev : MdEvent) :
    Writer.handleEvent ⟨some w, tOn, oracle⟩ t1 st ev =
      Writer.handleEvent ⟨some w, tOn, oracle⟩ t2 st ev := by
  unfold Writer.handleEvent
  by_cases h : st.tableState.isSome <;>
    simp [h, handleTableEvent_term_irrel w tOn oracle t1 t2]

/-- The whole event fold ignores the terminal width when a wrap width is
configured. -/
theorem foldl_handleEvent_term_irrel (w : Nat) (tOn : Bool) (oracle : HlOracle)
    (t1 t2 : Option Nat) (evs : List MdEvent) (st : Writer) :
    List.foldlM (fun st ev => Writer.handleEvent ⟨some w, tOn, oracle⟩ t1 st ev) st evs =
      List.foldlM (fun st ev => Writer.handleEvent ⟨some w, tOn, oracle⟩ t2 st ev) st evs := by
  induction evs generalizing st with
  | nil => rfl
  | cons e es ih =>
    simp only [List.foldlM_cons]
    rw [handleEvent_term_irrel w tOn oracle t1 t2]
    cases Writer.handleEvent ⟨some w, tOn, oracle⟩ t2 st e with
    | none => rfl
    | some st' => simpa using ih st'

/-- C9 amended: rendering is a pure function of the
(text, wrap width, tables flag) tuple TOGETHER WITH the ambient terminal
width; whenever a wrap width is configured the output is additionally
independent of the terminal width, both at the event level and through
`render_markdown_text_with_width`.  (When no wrap width is configured and a
table is rendered, the output may depend on the ambient terminal width, as
the counterexample shows.) -/
theorem c9_deterministic_given_terminal (w : Nat) (tOn : Bool) (oracle : HlOracle)
    (t1 t2 : Option Nat) (evs : List MdEvent) (parse : Str → List MdEvent)
    (input : Str) :
    runWriter ⟨some w, tOn, oracle⟩ t1 evs = runWriter ⟨some w, tOn, oracle⟩ t2 evs ∧
    renderMarkdownTextWithWidth parse oracle input (some w) tOn t1 =
      renderMarkdownTextWithWidth parse oracle input (some w) tOn t2 := by
  have hrun : ∀ evs' : List MdEvent,
      runWriter ⟨some w, tOn, oracle⟩ t1 evs' = runWriter ⟨some w, tOn, oracle⟩ t2 evs' := by
    intro evs'
    unfold runWriter
    rw [foldl_handleEvent_term_irrel w tOn oracle t1 t2]
  refine ⟨hrun evs, ?_⟩
  unfold renderMarkdownTextWithWidth
  cases h : (if tOn then normalizeTableBlocks input else some input) with
  | none => rfl
  | some n => simpa using hrun (parse n)

/-! ## C5 — list item markers and continuation indents -/

/-- C5: at nesting depth `d ≥ 1` (the list-counter stack is non-empty), the
marker column width is `4·d − 3`; an unordered item pushes a frame whose
one-shot marker is `(width − 1)` spaces followed by `"- "` and whose
continuation-line prefix is `width + 1` spaces, leaving the counters
unchanged; an ordered item with current counter `k` pushes a frame whose
marker is `k` right-aligned in `width` columns followed by `". "` and whose
continuation-line prefix is `width + 2` spaces, and the counter becomes
`k + 1`. -/
theorem c5_start_item_marker_layout (st : Writer) (is : List (Option Nat)) :
    (st.listIndices = is ++ [none] →
      (Writer.startItem st).indentStack =
        st.indentStack ++
          [⟨[spanRaw (List.replicate (4 * st.listIndices.length - 3 + 1) ' ')],
            some [mkSpan
                (List.replicate (4 * st.listIndices.length - 3 - 1) ' ' ++ lit "- ")
                markdownStyles.unorderedListMarker],
            true⟩] ∧
      (Writer.startItem st).listIndices = st.listIndices) ∧
    (∀ k : Nat, st.listIndices = is ++ [some k] →
      (Writer.startItem st).indentStack =
        st.indentStack ++
          [⟨[spanRaw (List.replicate (4 * st.listIndices.length - 3 + 2) ' ')],
            some [mkSpan
                (padLeft (4 * st.listIndices.length - 3) (toDecimal k) ++ lit ". ")
                markdownStyles.orderedListMarker],
            true⟩] ∧
      (Writer.startItem st).listIndices = is ++ [some (k + 1)]) := by
  constructor
  · intro h
    have hlen : st.listIndices.length = is.length + 1 := by simp [h]
    have hne : st.listIndices.length ≠ 0 := by omega
    constructor
    · simp only [Writer.startItem, h, List.getLast?_concat]
      simp only [← h, hlen]
      have hnz : is.length + 1 ≠ 0 := Nat.succ_ne_zero _
      simp [hnz, Nat.mul_comm]
    · simp [Writer.startItem, h, List.getLast?_concat]
  · intro k h
    have hlen : st.listIndices.length = is.length + 1 := by simp [h]
    constructor
    · simp only [Writer.startItem, h, List.getLast?_concat]
      simp only [← h, hlen]
      have hnz : is.length + 1 ≠ 0 := Nat.succ_ne_zero _
      simp [hnz, Nat.mul_comm]
    · simp [Writer.startItem, h, List.getLast?_concat, List.dropLast_concat]

/-- C5 witness: an ordered item at depth 1 with counter 3; width
`4·1 − 3 = 1`, marker `"3. "`, continuation indent 3 spaces, counter
becomes 4. -/
theorem c5_start_item_marker_layout_witness :
    (Writer.startItem { initialWriter with listIndices := [some 3] }).indentStack =
      [⟨[spanRaw (List.replicate 3 ' ')],
        some [mkSpan (padLeft 1 (toDecimal 3) ++ lit ". ") markdownStyles.orderedListMarker],
        true⟩] ∧
    (Writer.startItem { initialWriter with listIndices := [some 3] }).listIndices =
      [some 4] := by
  have h :=
    (c5_start_item_marker_layout { initialWriter with listIndices := [some 3] } []).2 3 rfl
  exact ⟨by simpa [initialWriter] using h.1, by simpa using h.2⟩

/-! ## C4 — separator synthesis -/

theorem splitOnChar_ne_nil (c : Char) (s : Str) : splitOnChar c s ≠ [] := by
  cases s with
  | nil => simp [splitOnChar]
  | cons d cs =>
    simp only [splitOnChar]
    split
    · simp
    · split <;> simp

theorem splitOnChar_cons_sep (c : Char) (cs : Str) :
    splitOnChar c (c :: cs) = [] :: splitOnChar c cs := by
  simp [splitOnChar]

theorem splitOnChar_cons_ne (c d : Char) (cs : Str) (h : ¬d = c) :
    splitOnChar c (d :: cs) =
      match splitOnChar c cs with
      | [] => [[d]]
      | l :: ls => (d :: l) :: ls := by
  simp [splitOnChar, h]

/-- Appending the separator character appends one empty part. -/
theorem splitOnChar_snoc_sep (c : Char) (s : Str) :
    splitOnChar c (s ++ [c]) = splitOnChar c s ++ [[]] := by
  induction s with
  | nil => simp [splitOnChar]
  | cons d cs ih =>
    rw [List.cons_append]
    by_cases hd : d = c
    · subst hd
      rw [splitOnChar_cons_sep, splitOnChar_cons_sep, ih]
      rfl
    · rw [splitOnChar_cons_ne c d _ hd, splitOnChar_cons_ne c d cs hd, ih]
      cases h : splitOnChar c cs with
      | nil => exact absurd h (splitOnChar_ne_nil c cs)
      | cons l ls => rfl

theorem tail_getLast?_of_ne_nil {α} (l : List α) (h : l.tail ≠ []) :
    l.tail.getLast? = l.getLast? := by
  cases l with
  | nil => simp at h
  | cons a t =>
    cases t with
    | nil => simp at h
    | cons b u => simp [List.getLast?_cons_cons]

/-- When the trimmed header ends with `'|'`, the raw split ends with an
empty part. -/
theorem splitOnChar_getLast_sep (t : Str) (h : t.getLast? = some '|') :
    (splitOnChar '|' t).getLast? = some [] := by
  have htne : t ≠ [] := by intro hn; subst hn; simp at h
  have hlast : t.getLast htne = '|' := by
    have := List.getLast?_eq_getLast t htne
    rw [this] at h
    exact Option.some.inj h
  have hid : t.dropLast ++ ['|'] = t := by
    conv_rhs => rw [← List.dropLast_append_getLast htne]
    rw [hlast]
  calc (splitOnChar '|' t).getLast?
      = (splitOnChar '|' (t.dropLast ++ ['|'])).getLast? := by rw [hid]
    _ = (splitOnChar '|' t.dropLast ++ [[]]).getLast? := by rw [splitOnChar_snoc_sep]
    _ = some [] := List.getLast?_concat _

/-- The code's cell list of `build_pipe_table_separator` coincides with the
claim's description (drop the leading/trailing *empty* cell produced by
outer pipes). -/
theorem pipeHeaderCells_eq_claim (t : Str) : pipeHeaderCells t = claimCells t := by
  simp only [pipeHeaderCells, claimCells]
  have hne := splitOnChar_ne_nil '|' t
  have hnotEmpty : (splitOnChar '|' t).isEmpty = false := by
    cases h : splitOnChar '|' t with
    | nil => exact absurd h hne
    | cons l ls => rfl
  have hc1 : (decide (t.head? = some '|') && !(splitOnChar '|' t).isEmpty) =
      (decide (t.head? = some '|') && decide ((splitOnChar '|' t).head? = some [])) := by
    by_cases h1 : t.head? = some '|'
    · have hhead : (splitOnChar '|' t).head? = some [] := by
        cases t with
        | nil => simp at h1
        | cons c cs =>
          have hc : c = '|' := by simpa using h1
          subst hc
          simp [splitOnChar]
      simp [h1, hhead, hnotEmpty]
    · simp [h1]
  rw [hc1]
  set P : List Str :=
    if decide (t.head? = some '|') && decide ((splitOnChar '|' t).head? = some [])
    then (splitOnChar '|' t).tail else splitOnChar '|' t with hP
  have hPcases : P = splitOnChar '|' t ∨ P = (splitOnChar '|' t).tail := by
    rw [hP]; split
    · exact Or.inr rfl
    · exact Or.inl rfl
  have hc2 : (decide (t.getLast? = some '|') && !P.isEmpty) =
      (decide (t.getLast? = some '|') && decide (P.getLast? = some [])) := by
    by_cases h2 : t.getLast? = some '|'
    · have hsplast : (splitOnChar '|' t).getLast? = some [] := splitOnChar_getLast_sep t h2
      by_cases hPnil : P = []
      · simp [h2, hPnil]
      · have hPempty : P.isEmpty = false := by
          cases hp : P with
          | nil => exact absurd hp hPnil
          | cons a u => rfl
        have hPlast : P.getLast? = some [] := by
          rcases hPcases with hcase | hcase
          · rw [hcase]; exact hsplast
          · rw [hcase]
            rw [tail_getLast?_of_ne_nil _ (hcase ▸ hPnil)]
            exact hsplast
        simp [h2, hPempty, hPlast]
    · simp [h2]
  rw [hc2]

/-- Rust `build_pipe_table_separator` produces exactly the claim's separator:
`'|'` followed by `" --- |"` once per claim-counted column, or nothing when
that count is zero. -/
theorem buildPipeTableSeparator_eq_claim (rows : List Str) (r : Str)
    (hfind : rows.find? isPipeTableLine = some r) :
    buildPipeTableSeparator rows =
      if claimColumnCount r = 0 then none
      else some ('|' :: (List.replicate (claimColumnCount r) (lit " --- |")).flatten) := by
  simp only [buildPipeTableSeparator, claimColumnCount, hfind, pipeHeaderCells_eq_claim]

/-- C4: for every table block with no separator row, the separator-insertion
step inserts exactly one separator — `'|'` followed by `" --- |"` repeated
once per column, the column count being the pipe-delimited cells of the
first pipe-table row minus the outer-pipe empties — as the second row;
when that count is zero, the rows are left unmodified. -/
theorem c4_separator_synthesis (rows : List Str) (r : Str)
    (hnosep : rows.any isPipeTableSeparator = false)
    (hfind : rows.find? isPipeTableLine = some r) :
    (claimColumnCount r = 0 → withSeparator rows = rows) ∧
    (claimColumnCount r ≠ 0 →
      withSeparator rows =
        insertAt1 ('|' :: (List.replicate (claimColumnCount r) (lit " --- |")).flatten)
          rows) := by
  have hbuild := buildPipeTableSeparator_eq_claim rows r hfind
  constructor
  · intro h0
    rw [if_pos h0] at hbuild
    simp [withSeparator, hnosep, hbuild]
  · intro hn
    rw [if_neg hn] at hbuild
    simp [withSeparator, hnosep, hbuild]

/-- C4 witness: a two-column header row with no separator gets
`"| --- | --- |"` inserted as the second row. -/
theorem c4_separator_synthesis_witness :
    withSeparator [lit "| a | b |"] =
      insertAt1 ('|' :: (List.replicate (claimColumnCount (lit "| a | b |"))
          (lit " --- |")).flatten)
        [lit "| a | b |"] :=
  (c4_separator_synthesis [lit "| a | b |"] (lit "| a | b |") (by decide) (by decide)).2
    (by decide)

/-! ## C8 — grammar-highlighter failure fallback -/

/-- If the event stream contains an error event and the loop does not panic
first, it returns the whole source as a single unstyled line, discarding any
partial progress. -/
theorem grammarLoop_err_fallback (lang : HighlightLanguage) (source : Str)
    (evs : List (Option GEvent)) (stack : List Nat) (lines : List RLine)
    (hmem : none ∈ evs)
    (hnp : grammarLoop lang source evs stack lines ≠ .panicked) :
    grammarLoop lang source evs stack lines = .lines [lineFrom source] := by
  induction evs generalizing stack lines with
  | nil => simp at hmem
  | cons e rest ih =>
    cases e with
    | none => simp [grammarLoop]
    | some g =>
      have hmem' : none ∈ rest := by simpa using hmem
      cases g with
      | hlStart h => exact ih _ _ hmem' (by simpa [grammarLoop] using hnp)
      | hlEnd => exact ih _ _ hmem' (by simpa [grammarLoop] using hnp)
      | src s e =>
        by_cases hse : s = e
        · rw [grammarLoop, if_pos hse] at hnp ⊢
          exact ih _ _ hmem' hnp
        · rw [grammarLoop, if_neg hse] at hnp ⊢
          cases hslice : sliceBytes source s e with
          | none =>
            rw [hslice] at hnp
            exact absurd rfl hnp
          | some seg =>
            rw [hslice] at hnp
            exact ih _ _ hmem' hnp

/-- C8: for every grammar-strategy language, if the incremental highlighter
fails to start, or yields an error event at any point (and the stream's
source ranges up to that point are well-formed, i.e. the loop does not
panic), `highlight_to_lines` returns the entire source as a single unstyled
line and never propagates the failure. -/
theorem c8_grammar_failure_fallback (lang : HighlightLanguage)
    (hg : isGrammarStrategy lang = true) (source : Str) (oracle : HlOracle) :
    (oracle lang source = none →
      highlightToLines lang source oracle = .lines [lineFrom source]) ∧
    (∀ evs, oracle lang source = some evs → none ∈ evs →
      highlightToLines lang source oracle ≠ .panicked →
      highlightToLines lang source oracle = .lines [lineFrom source]) := by
  cases lang <;> try exact absurd hg (by decide)
  all_goals
    refine ⟨fun h => by simp [highlightToLines, h], fun evs h hmem hnp => ?_⟩
    simp only [highlightToLines, h] at hnp ⊢
    exact grammarLoop_err_fallback _ _ _ _ _ hmem hnp

/-- C8 witness: a rust source whose event stream yields one source event and
then an error comes back as the whole source, unstyled, in one line. -/
theorem c8_grammar_failure_fallback_witness :
    highlightToLines .rust (lit "fn") (fun _ _ => some [some (.src 0 1), none]) =
      .lines [lineFrom (lit "fn")] :=
  (c8_grammar_failure_fallback .rust (by decide) (lit "fn")
      (fun _ _ => some [some (.src 0 1), none])).2
    [some (.src 0 1), none] rfl (by decide) (by decide)

/-! ## C10 — highlight output is never empty -/

/-- The grammar loop never returns an empty line list. -/
theorem grammarLoop_lines_ne_nil (lang : HighlightLanguage) (source : Str)
    (evs : List (Option GEvent)) (stack : List Nat) (lines : List RLine)
    (ls : List RLine) (h : grammarLoop lang source evs stack lines = .lines ls) :
    ls ≠ [] := by
  induction evs generalizing stack lines with
  | nil =>
    rw [grammarLoop] at h
    by_cases hl : lines = []
    · rw [if_pos hl] at h
      cases h
      simp
    · rw [if_neg hl] at h
      cases h
      exact hl
  | cons e rest ih =>
    cases e with
    | none =>
      rw [grammarLoop] at h
      cases h
      simp
    | some g =>
      cases g with
      | hlStart i => exact ih _ _ (by simpa [grammarLoop] using h)
      | hlEnd => exact ih _ _ (by simpa [grammarLoop] using h)
      | src s e =>
        by_cases hse : s = e
        · rw [grammarLoop, if_pos hse] at h
          exact ih _ _ h
        · rw [grammarLoop, if_neg hse] at h
          cases hslice : sliceBytes source s e with
          | none =>
            rw [hslice] at h
            exact absurd h (by simp)
          | some seg =>
            rw [hslice] at h
            exact ih _ _ h

theorem splitNl_ne_nil (s : Str) : splitNl s ≠ [] := splitOnChar_ne_nil '\n' s

/-- C10: for every language tag and every source text (including the empty
string), whenever `highlight_to_lines` returns (rather than panicking on an
ill-formed external event stream), it returns at least one line. -/
theorem c10_highlight_to_lines_nonempty (lang : HighlightLanguage) (source : Str)
    (oracle : HlOracle) (ls : List RLine)
    (h : highlightToLines lang source oracle = .lines ls) : ls ≠ [] := by
  cases lang <;>
    first
    | -- the four heuristic tokenizers: one line per `split('\n')` part
      (simp only [highlightToLines, highlightMarkdownToLines,
         highlightDockerfileToLines, highlightDotenvToLines,
         highlightIniToLines, HlOut.lines.injEq] at h
       subst h
       simp only [ne_eq, List.map_eq_nil_iff]
       exact splitNl_ne_nil source)
    | -- the grammar strategy
      (simp only [highlightToLines] at h
       split at h
       · cases h
         simp
       · exact grammarLoop_lines_ne_nil _ _ _ _ _ _ h)

/-- C10 witness: the empty ini source still yields one (blank) line. -/
theorem c10_highlight_to_lines_nonempty_witness :
    ([⟨[spanRaw []], noStyle⟩] : List RLine) ≠ [] :=
  c10_highlight_to_lines_nonempty .ini [] (fun _ _ => none) [⟨[spanRaw []], noStyle⟩]
    (by decide)

/-! ## C3 — normalizer on already-valid table blocks -/

theorem splitNl_no_nl : ∀ (l : Str), '\n' ∉ l → splitNl l = [l] := by
  intro l
  induction l with
  | nil => intro _; rfl
  | cons c cs ih =>
    intro h
    have hc : ¬(c = '\n') := fun hh => h (hh ▸ List.mem_cons_self c cs)
    have hcs : '\n' ∉ cs := fun hh => h (List.mem_cons_of_mem c hh)
    simp only [splitNl] at ih ⊢
    rw [splitOnChar_cons_ne _ _ _ hc, ih hcs]

theorem splitNl_block : ∀ (l : Str), '\n' ∉ l →
    ∀ s, splitNl (l ++ '\n' :: s) = l :: splitNl s := by
  intro l
  induction l with
  | nil =>
    intro _ s
    simp only [splitNl, List.nil_append]
    exact splitOnChar_cons_sep '\n' s
  | cons c cs ih =>
    intro h s
    have hc : ¬(c = '\n') := fun hh => h (hh ▸ List.mem_cons_self c cs)
    have hcs : '\n' ∉ cs := fun hh => h (List.mem_cons_of_mem c hh)
    simp only [splitNl, List.cons_append] at ih ⊢
    rw [splitOnChar_cons_ne _ _ _ hc, ih hcs s]

theorem joinNl_cons_cons (a b : Str) (ls : List Str) :
    joinNl (a :: b :: ls) = a ++ '\n' :: joinNl (b :: ls) := rfl

theorem joinNl_snoc (ls : List Str) (x : Str) (h : ls ≠ []) :
    joinNl (ls ++ [x]) = joinNl ls ++ '\n' :: x := by
  induction ls with
  | nil => exact absurd rfl h
  | cons a rest ih =>
    cases rest with
    | nil => rfl
    | cons b u =>
      have ih' := ih (by simp)
      simp only [List.cons_append] at ih' ⊢
      rw [joinNl_cons_cons, joinNl_cons_cons, ih', List.append_assoc]
      rfl

theorem splitNl_joinNl : ∀ (ls : List Str), ls ≠ [] → (∀ l ∈ ls, '\n' ∉ l) →
    splitNl (joinNl ls) = ls := by
  intro ls
  induction ls with
  | nil => intro h; exact absurd rfl h
  | cons a rest ih =>
    intro _ hmem
    cases rest with
    | nil => exact splitNl_no_nl a (hmem a (by simp))
    | cons b u =>
      rw [joinNl_cons_cons, splitNl_block a (hmem a (by simp)),
        ih (by simp) fun l hl => hmem l (List.mem_cons_of_mem _ hl)]

theorem getLast?_cons_of_ne_nil {α} (a : α) (l : List α) (h : l ≠ []) :
    (a :: l).getLast? = l.getLast? := by
  cases l with
  | nil => exact absurd rfl h
  | cons b u => exact List.getLast?_cons_cons

theorem joinNl_snoc_getLast? : ∀ (ls : List Str) (x : Str), x ≠ [] →
    (joinNl (ls ++ [x])).getLast? = x.getLast? := by
  intro ls
  induction ls with
  | nil => intro x _; rfl
  | cons a rest ih =>
    intro x hx
    rw [List.cons_append]
    have hne : rest ++ [x] ≠ [] := by simp
    cases h : rest ++ [x] with
    | nil => exact absurd h hne
    | cons b u =>
      rw [joinNl_cons_cons]
      have hj : (joinNl (b :: u)).getLast? = x.getLast? := by
        rw [← h]
        exact ih x hx
      have hjne : joinNl (b :: u) ≠ [] := by
        intro hn
        rw [hn] at hj
        have : x.getLast? = none := hj.symm
        exact hx (List.getLast?_eq_none_iff.mp this)
      rw [List.getLast?_append_of_ne_nil a (by simp),
        getLast?_cons_of_ne_nil _ _ hjne, hj]

/-- A line starting with `'|'` has no structural prefix:
`split_table_prefix` strips nothing. -/
theorem splitTableMarker_pipe (l : Str) (h : l.head? = some '|') :
    splitTableMarker l = some (0, l) := by
  cases l with
  | nil => simp at h
  | cons c cs =>
    have hc : c = '|' := by simpa using h
    subst hc
    have ha : isSpTab '|' = false := by decide
    have hb : ¬('|' = '>') := by decide
    have hc2 : ¬('|' = bulletChar) := by decide
    have hd : ¬('|' = '-' ∨ '|' = '+' ∨ '|' = '*') := by decide
    have he : Char.isDigit '|' = false := by decide
    simp [splitTableMarker, quoteSkip, tableListMarker, ha, hb, hc2, hd, he]

theorem isBoxTableLine_pipe (l : Str) (h : l.head? = some '|') :
    isBoxTableLine l = false := by
  cases l with
  | nil => simp at h
  | cons c cs =>
    have hc : c = '|' := by simpa using h
    subst hc
    have ha : rustIsWhitespace '|' = false := by decide
    have hbox : ('|' = '┌' || '|' = '├' || '|' = '└' || '|' = '│') = false := by decide
    simp [isBoxTableLine, trimStart, ha, hbox]

theorem stripLead_zero (l : Str) (h : l ≠ []) : stripLead l 0 = some l := by
  cases l with
  | nil => exact absurd rfl h
  | cons c cs =>
    have hpos : 0 < utf8Len (c :: cs) := by
      have h1 := Char.utf8Size_pos c
      simp only [utf8Len, List.map_cons, List.sum_cons]
      omega
    rw [stripLead, if_neg (by omega)]
    rfl

theorem pipe_line_trim_ne (l : Str) (h : isPipeTableLine l = true) :
    rustTrim l ≠ [] := by
  intro hnil
  rw [isPipeTableLine] at h
  simp [hnil] at h

theorem sep_line_trim_ne (l : Str) (h : isPipeTableSeparator l = true) :
    rustTrim l ≠ [] := by
  intro hnil
  rw [isPipeTableSeparator] at h
  simp [hnil] at h

/-- Inside a table block, a run of outer-pipe table/separator lines is
collected wholesale and the block is finished at the end of input. -/
theorem normGo_block_all : ∀ (rest : List Str) (rows : List Str),
    (∀ l ∈ rest, l.head? = some '|' ∧
      (isPipeTableLine l = true ∨ isPipeTableSeparator l = true)) →
    normGo (.block 0 rows) rest = some (finishBlock (rows ++ rest)) := by
  intro rest
  induction rest with
  | nil => intro rows _; simp [normGo]
  | cons l rest' ih =>
    intro rows h
    obtain ⟨hhead, hkind⟩ := h l (by simp)
    have hlne : l ≠ [] := by intro hn; rw [hn] at hhead; simp at hhead
    have htrim : ¬(rustTrim l = []) := by
      rcases hkind with hk | hk
      · exact pipe_line_trim_ne l hk
      · exact sep_line_trim_ne l hk
    have hbox := isBoxTableLine_pipe l hhead
    have hps : (isPipeTableLine l || isPipeTableSeparator l) = true := by
      rcases hkind with hk | hk <;> simp [hk]
    rw [normGo, if_neg htrim, if_neg (by simp [hbox]), stripLead_zero l hlne]
    simp only [hps, if_true]
    rw [ih (rows ++ [l]) fun l' hl' => h l' (List.mem_cons_of_mem _ hl')]
    simp

/-- As above, but with the block terminated by a blank line, which is
consumed. -/
theorem normGo_block_all_blank : ∀ (rest : List Str) (rows : List Str),
    (∀ l ∈ rest, l.head? = some '|' ∧
      (isPipeTableLine l = true ∨ isPipeTableSeparator l = true)) →
    normGo (.block 0 rows) (rest ++ [[]]) = some (finishBlock (rows ++ rest)) := by
  intro rest
  induction rest with
  | nil =>
    intro rows _
    simp [normGo, rustTrim, trimStart, trimEnd]
  | cons l rest' ih =>
    intro rows h
    obtain ⟨hhead, hkind⟩ := h l (by simp)
    have hlne : l ≠ [] := by intro hn; rw [hn] at hhead; simp at hhead
    have htrim : ¬(rustTrim l = []) := by
      rcases hkind with hk | hk
      · exact pipe_line_trim_ne l hk
      · exact sep_line_trim_ne l hk
    have hbox := isBoxTableLine_pipe l hhead
    have hps : (isPipeTableLine l || isPipeTableSeparator l) = true := by
      rcases hkind with hk | hk <;> simp [hk]
    rw [List.cons_append, normGo, if_neg htrim, if_neg (by simp [hbox]),
      stripLead_zero l hlne]
    simp only [hps, if_true]
    rw [ih (rows ++ [l]) fun l' hl' => h l' (List.mem_cons_of_mem _ hl')]
    simp

/-- C3 counterexample: on the already-valid table block
`"| a |\n| --- |\n| b |"` the normalizer does not return the input
unchanged — it appends a trailing newline (the blank-line terminator each
emitted block receives). -/
theorem c3_normalize_not_identity :
    normalizeTableBlocks (lit "| a |\n| --- |\n| b |") ≠
      some (lit "| a |\n| --- |\n| b |") := by decide

/-- C3 amended: on every already-valid pipe-table block the normalizer
leaves the table rows unchanged and inserts no separator; the only change is
one appended trailing newline.  Consequently applying it twice is not equal
to applying it once either: the second application appends one more
newline. -/
theorem c3_normalize_appends_newline (ls : List Str)
    (hvalid : isValidTableBlock ls = true) :
    normalizeTableBlocks (joinNl ls) = some (joinNl ls ++ ['\n']) ∧
    normalizeTableBlocks (joinNl ls ++ ['\n']) =
      some (joinNl ls ++ ['\n'] ++ ['\n']) := by
  obtain ⟨l0, rest, rfl⟩ : ∃ l0 rest, ls = l0 :: rest := by
    cases ls with
    | nil => simp [isValidTableBlock] at hvalid
    | cons a b => exact ⟨a, b, rfl⟩
  rw [isValidTableBlock] at hvalid
  simp only [Bool.and_eq_true, List.all_eq_true, List.any_eq_true,
    decide_eq_true_eq, Bool.not_eq_true'] at hvalid
  obtain ⟨⟨hpipe0, hall⟩, hsep⟩ := hvalid
  have hgood : ∀ l ∈ l0 :: rest, l.head? = some '|' ∧
      (isPipeTableLine l = true ∨ isPipeTableSeparator l = true) := by
    intro l hl
    obtain ⟨⟨hh, _⟩, hps⟩ := hall l hl
    exact ⟨hh, by simpa using hps⟩
  have hnonl : ∀ l ∈ l0 :: rest, '\n' ∉ l := by
    intro l hl
    obtain ⟨⟨_, hc⟩, _⟩ := hall l hl
    simpa using hc
  have hsplit : splitNl (joinNl (l0 :: rest)) = l0 :: rest :=
    splitNl_joinNl _ (by simp) hnonl
  have hh0 : l0.head? = some '|' := (hgood l0 (by simp)).1
  have hl0ne : l0 ≠ [] := by intro hn; rw [hn] at hh0; simp at hh0
  have hfirst : plainStep l0 = some ([], .block 0 [l0]) := by
    rw [plainStep, isBoxTableLine_pipe l0 hh0]
    simp only [Bool.false_eq_true, if_false]
    rw [splitTableMarker_pipe l0 hh0]
    simp only [hpipe0, if_true]
    rw [stripLead_zero l0 hl0ne]
  have hgoodrest : ∀ l ∈ rest, l.head? = some '|' ∧
      (isPipeTableLine l = true ∨ isPipeTableSeparator l = true) :=
    fun l hl => hgood l (List.mem_cons_of_mem _ hl)
  have hfin : finishBlock (l0 :: rest) = (l0 :: rest) ++ [[]] := by
    have hany : (l0 :: rest).any isPipeTableSeparator = true :=
      List.any_eq_true.mpr hsep
    simp [finishBlock, withSeparator, hany]
  have hrun : normGo .plain (l0 :: rest) = some (finishBlock (l0 :: rest)) := by
    rw [normGo, hfirst]
    simp [normGo_block_all rest [l0] hgoodrest]
  have hjoin1 : joinNl ((l0 :: rest) ++ [[]]) = joinNl (l0 :: rest) ++ ['\n'] :=
    joinNl_snoc _ _ (by simp)
  have hlastNotNl : ¬((joinNl (l0 :: rest)).getLast? = some '\n') := by
    have hlsne : (l0 :: rest : List Str) ≠ [] := by simp
    have hdecomp : (l0 :: rest).dropLast ++ [(l0 :: rest).getLast hlsne] = l0 :: rest :=
      List.dropLast_append_getLast hlsne
    have hlastMem : (l0 :: rest).getLast hlsne ∈ l0 :: rest := List.getLast_mem hlsne
    have hlastne : (l0 :: rest).getLast hlsne ≠ [] := by
      intro hn
      have := (hgood _ hlastMem).1
      rw [hn] at this
      simp at this
    have hglast : (joinNl (l0 :: rest)).getLast? =
        ((l0 :: rest).getLast hlsne).getLast? := by
      conv_lhs => rw [← hdecomp]
      exact joinNl_snoc_getLast? _ _ hlastne
    rw [hglast]
    intro hcontra
    have hmem : '\n' ∈ (l0 :: rest).getLast hlsne :=
      List.mem_of_mem_getLast? hcontra
    exact hnonl _ hlastMem hmem
  constructor
  · rw [normalizeTableBlocks, hsplit, hrun]
    simp only [hfin, hjoin1, if_neg hlastNotNl, List.append_nil]
  · have hsplit2 : splitNl (joinNl (l0 :: rest) ++ ['\n']) = (l0 :: rest) ++ [[]] := by
      have := splitOnChar_snoc_sep '\n' (joinNl (l0 :: rest))
      simp only [splitNl] at hsplit ⊢
      rw [this, hsplit]
    have hrun2 : normGo .plain ((l0 :: rest) ++ [[]]) =
        some (finishBlock (l0 :: rest)) := by
      rw [List.cons_append, normGo, hfirst]
      simp [normGo_block_all_blank rest [l0] hgoodrest]
    have hends : (joinNl (l0 :: rest) ++ ['\n']).getLast? = some '\n' :=
      List.getLast?_concat _
    rw [normalizeTableBlocks, hsplit2, hrun2]
    simp [hfin, hjoin1, hends]
    rw [← List.cons_append, joinNl_snoc _ _ (by simp : (l0 :: rest : List Str) ≠ [])]
    simp

/-- C3 witness: the amended statement evaluated at a concrete valid block. -/
theorem c3_normalize_appends_newline_witness :
    normalizeTableBlocks (joinNl [lit "| a |", lit "| --- |", lit "| b |"]) =
      some (joinNl [lit "| a |", lit "| --- |", lit "| b |"] ++ ['\n']) :=
  (c3_normalize_appends_newline [lit "| a |", lit "| --- |", lit "| b |"] (by decide)).1

end Codex
